import Mathlib

/-!
Verification of the `l3_engine` event-driven limit-order-book backtester.

This file gives a shallow embedding of the repository's data model and of
the operations relevant to the frozen claims, translated from the Python
source (`src/backtest.py`, `src/core/order_book.py`, `src/core/execution.py`,
`src/core/portfolio.py`, `src/data/loader.py`, `src/domain/enums.py`,
`src/strategy/base.py`, `src/strategy/footprint_diagonal.py`).

Modelling conventions:
* `decimal.Decimal` prices and monetary values are modelled as `ℚ`
  (Decimal `+`, `-`, `*` are exact; the only division the claims touch is
  the weighted-average fill price, which the claims state as the exact
  quotient).
* Python `dict`s (insertion-ordered) are modelled as association lists:
  assignment replaces in place or appends, deletion filters, iteration is
  list order.
* `sortedcontainers.SortedDict` book sides are modelled as price-sorted
  association lists (bids descending — the source builds them with key
  `-k` — asks ascending).
* Python truthiness on optional Decimals (`if x:`) is `x` present and
  nonzero; on optional id strings it is `x` present (ids are nonempty).
* The source's order ids are strings `f"{prefix}_{n}_{time_ns}"` produced
  by an always-incremented counter, and stop-spawned market orders use
  `f"{order_id}_MKT"`; we model them as an inductive type `OrderId` whose
  two constructors mirror those two string shapes, keeping the counter
  that makes generated ids distinct.
* `src/domain/events.py` is not part of the provided sources (only its
  callers are); the event record fields below are taken from the spec's
  §3 data model and from the constructor calls in the sources.
-/

namespace L3

/-- `Side` from `src/domain/enums.py` (BUY = 0, SELL = 1). -/
inductive Side where
  | BUY
  | SELL
deriving DecidableEq, Repr

/-- `OrderType` from `src/domain/enums.py`. -/
inductive OrderType where
  | MARKET
  | LIMIT
  | STOP_MARKET
deriving DecidableEq, Repr

/-- `OrderStatus` from `src/domain/enums.py`. -/
inductive OrderStatus where
  | PENDING_SUBMIT
  | ACCEPTED
  | REJECTED
  | PARTIALLY_FILLED
  | FILLED
  | PENDING_CANCEL
  | CANCELLED
  | TRIGGERED
deriving DecidableEq, Repr

/-- `OrderCommand` from `src/domain/enums.py`: the standard commands
INSERT = 1, UPDATE = 2, DELETE = 3 *and* the placeholder members
UNKNOWN_4 .. UNKNOWN_7 for command codes 4..7 discovered in the data. -/
inductive OrderCommand where
  | DELETE
  | INSERT
  | UPDATE
  | UNKNOWN_4
  | UNKNOWN_5
  | UNKNOWN_6
  | UNKNOWN_7
deriving DecidableEq, Repr

/-- `OrderCommand(int(row[1]))` with the loader's `except ValueError`
fallback (`src/data/loader.py`, `_create_event_from_row`): codes 1..7 hit
actual enum members — including the UNKNOWN placeholders — and only codes
with no member (anything outside 1..7) raise `ValueError` and are replaced
by `UPDATE`. -/
def OrderCommand.fromCode (c : ℤ) : OrderCommand :=
  if c = 1 then .INSERT
  else if c = 2 then .UPDATE
  else if c = 3 then .DELETE
  else if c = 4 then .UNKNOWN_4
  else if c = 5 then .UNKNOWN_5
  else if c = 6 then .UNKNOWN_6
  else if c = 7 then .UNKNOWN_7
  else .UPDATE

/-- Order ids: `gen p n` stands for the string `f"{p}_{n}_{time_ns}"`
returned by `ExecutionHandler._generate_order_id` after incrementing the
counter to `n`, and `mkt i` for the stop-spawned child id `f"{i}_MKT"`
(`src/core/execution.py`, `check_stop_triggers`). -/
inductive OrderId where
  | gen (pfx : String) (n : ℕ)
  | mkt (parent : OrderId)
deriving DecidableEq, Repr

/-- The generator counter recorded in an id (`_generate_order_id` uses the
post-increment counter value; a `_MKT` child reuses its parent's). -/
def OrderId.counterOf : OrderId → ℕ
  | .gen _ n => n
  | .mkt p => p.counterOf

/-- One price level of the book: `{'qty': .., 'num_orders': ..}`. -/
structure Level where
  qty : ℤ
  num_orders : ℤ
deriving DecidableEq, Repr

/-- `MarketData_TradeEvent` (fields per spec §3 and the loader). -/
structure TradeEvent where
  timestamp : ℤ
  symbol : String
  price : ℚ
  quantity : ℤ
  side : Side
deriving DecidableEq, Repr

/-- `MarketData_DepthEvent` (fields per spec §3 and the loader). -/
structure DepthEvent where
  timestamp : ℤ
  symbol : String
  side : Side
  price : ℚ
  quantity : ℤ
  num_orders : ℤ
  command : OrderCommand
  flags : ℤ
deriving DecidableEq, Repr

/-- `SignalEvent` (fields per the constructor call in `strategy/base.py`). -/
structure SignalEvent where
  timestamp : ℤ
  strategy_id : String
  symbol : String
  direction : Side
  order_type : OrderType
  quantity : ℤ
  limit_price : Option ℚ
  stop_price : Option ℚ
  signal_trigger_price : Option ℚ
  signal_stop_price : Option ℚ
  signal_target_price : Option ℚ
deriving DecidableEq, Repr

/-- `OrderEvent` (fields per the constructor calls in `core/execution.py`). -/
structure OrderEvent where
  timestamp : ℤ
  order_id : OrderId
  strategy_id : String
  symbol : String
  quantity : ℤ
  order_type : OrderType
  direction : Side
  limit_price : Option ℚ
  stop_price : Option ℚ
  filled_quantity : ℤ
  status : OrderStatus
  linked_stop_price : Option ℚ
  linked_target_price : Option ℚ
  parent_order_id : Option OrderId
deriving DecidableEq, Repr

/-- `FillEvent` (fields per the constructor calls in `core/execution.py`;
the source's `fill_time` read in `core/portfolio.py` is the fill's
timestamp — the spec's §3 `Fill` record carries a single `ts`). -/
structure FillEvent where
  timestamp : ℤ
  order_id : OrderId
  strategy_id : String
  symbol : String
  direction : Side
  quantity_filled : ℤ
  fill_price : ℚ
  commission : ℚ
  linked_stop_price : Option ℚ
  linked_target_price : Option ℚ
deriving DecidableEq, Repr

/-- The tagged event union dispatched by the controller. -/
inductive Event where
  | trade (e : TradeEvent)
  | depth (e : DepthEvent)
  | signal (e : SignalEvent)
  | order (e : OrderEvent)
  | fill (e : FillEvent)
deriving DecidableEq, Repr

/-- Timestamp of an event (`event.timestamp`). -/
def Event.ts : Event → ℤ
  | .trade e => e.timestamp
  | .depth e => e.timestamp
  | .signal e => e.timestamp
  | .order e => e.timestamp
  | .fill e => e.timestamp

/-! ### Python dict / truthiness helpers -/

/-- `d.get(k)` on an insertion-ordered dict modelled as an association list. -/
def dictGet {κ α : Type} [DecidableEq κ] (l : List (κ × α)) (k : κ) : Option α :=
  (l.find? (fun p => p.1 = k)).map Prod.snd

/-- `d[k] = v`: replace in place if the key exists, else append. -/
def dictSet {κ α : Type} [DecidableEq κ] (l : List (κ × α)) (k : κ) (v : α) :
    List (κ × α) :=
  if l.any (fun p => p.1 = k) then
    l.map (fun p => if p.1 = k then (k, v) else p)
  else l ++ [(k, v)]

/-- `del d[k]`. -/
def dictDel {κ α : Type} [DecidableEq κ] (l : List (κ × α)) (k : κ) :
    List (κ × α) :=
  l.filter (fun p => ¬ p.1 = k)

/-- `k in d`. -/
def dictMem {κ α : Type} [DecidableEq κ] (l : List (κ × α)) (k : κ) : Prop :=
  (dictGet l k).isSome

instance {κ α : Type} [DecidableEq κ] (l : List (κ × α)) (k : κ) :
    Decidable (dictMem l k) := by
  unfold dictMem; infer_instance

/-- Python truthiness of an optional Decimal: `None` and `Decimal(0)` are
falsy. -/
def pyTruthyQ : Option ℚ → Bool
  | none => false
  | some q => q ≠ 0

/-- Python truthiness of an optional id string (the generated ids are
nonempty strings, hence truthy whenever present). -/
def pyTruthyId : Option OrderId → Bool
  | none => false
  | some _ => true

/-- Python `int()` applied to a nonnegative-or-negative Decimal: truncation
toward zero. -/
def pyInt (q : ℚ) : ℤ := if 0 ≤ q then ⌊q⌋ else ⌈q⌉

/-! ### Order book (`src/core/order_book.py`)

Book sides are the `SortedDict`s' item lists: `bids` sorted by the key
function `-k` (price descending), `asks` ascending. -/

structure OrderBook where
  symbol : String
  tick_size : ℚ
  bids : List (ℚ × Level)
  asks : List (ℚ × Level)
  last_update_time : ℤ
  best_bid : Option ℚ
  best_ask : Option ℚ
deriving DecidableEq, Repr

/-- Assignment `side[price] = level` into a bid ladder kept descending. -/
def insertBid (l : List (ℚ × Level)) (price : ℚ) (lv : Level) :
    List (ℚ × Level) :=
  match l with
  | [] => [(price, lv)]
  | (p, v) :: rest =>
    if price > p then (price, lv) :: (p, v) :: rest
    else if price = p then (price, lv) :: rest
    else (p, v) :: insertBid rest price lv

/-- Assignment `side[price] = level` into an ask ladder kept ascending. -/
def insertAsk (l : List (ℚ × Level)) (price : ℚ) (lv : Level) :
    List (ℚ × Level) :=
  match l with
  | [] => [(price, lv)]
  | (p, v) :: rest =>
    if price < p then (price, lv) :: (p, v) :: rest
    else if price = p then (price, lv) :: rest
    else (p, v) :: insertAsk rest price lv

/-- `del side[price]` (a no-op if the price level is absent). -/
def deleteLevel (l : List (ℚ × Level)) (price : ℚ) : List (ℚ × Level) :=
  l.filter (fun p => ¬ p.1 = price)

/-- `price in side` / `side.get(price)`. -/
def levelGet (l : List (ℚ × Level)) (price : ℚ) : Option Level :=
  (l.find? (fun p => p.1 = price)).map Prod.snd

/-- `OrderBook.process_depth_event`.  Stale or foreign events are ignored;
DELETE or UPDATE-with-nonpositive-qty removes the level; INSERT/UPDATE with
positive qty sets it (and with nonpositive qty removes it); any other
command — the UNKNOWN_4..7 members — matches neither branch and leaves the
ladders untouched.  `best_bid`/`best_ask` are recomputed as the side heads. -/
def OrderBook.process_depth_event (b : OrderBook) (e : DepthEvent) : OrderBook :=
  if e.symbol ≠ b.symbol ∨ e.timestamp < b.last_update_time then b
  else
    let isBidSide := e.side = Side.SELL
    let side := if isBidSide then b.bids else b.asks
    let side' :=
      if e.command = .DELETE ∨ (e.command = .UPDATE ∧ e.quantity ≤ 0) then
        deleteLevel side e.price
      else if e.command = .INSERT ∨ e.command = .UPDATE then
        if e.quantity > 0 then
          (if isBidSide then insertBid side e.price ⟨e.quantity, e.num_orders⟩
           else insertAsk side e.price ⟨e.quantity, e.num_orders⟩)
        else deleteLevel side e.price
      else side
    let bids' := if isBidSide then side' else b.bids
    let asks' := if isBidSide then b.asks else side'
    { b with
      last_update_time := e.timestamp
      bids := bids'
      asks := asks'
      best_bid := (bids'.head?).map Prod.fst
      best_ask := (asks'.head?).map Prod.fst }

/-- `OrderBook.get_bbo`. -/
def OrderBook.get_bbo (b : OrderBook) : Option ℚ × ℤ × Option ℚ × ℤ :=
  let bidQty := match b.best_bid with
    | some p => if pyTruthyQ (some p) then (levelGet b.bids p).elim 0 Level.qty else 0
    | none => 0
  let askQty := match b.best_ask with
    | some p => if pyTruthyQ (some p) then (levelGet b.asks p).elim 0 Level.qty else 0
    | none => 0
  (b.best_bid, bidQty, b.best_ask, askQty)

/-- `OrderBook.get_level_data` (`Side.SELL` selects the bids, `Side.BUY`
the asks, as documented in the source). -/
def OrderBook.get_level_data (b : OrderBook) (price : ℚ) (side : Side) :
    Option Level :=
  levelGet (if side = Side.SELL then b.bids else b.asks) price

/-- `OrderBook.estimate_quantity_ahead`.

For BUY the source iterates `self.bids.irange(minimum=order_price,
inclusive=(False, False))`.  The bids `SortedDict` was built with the key
function `-k`, and `SortedKeyList.irange` maps `minimum`/`maximum` through
the key function, so the exclusive range `minimum=p` selects the bid prices
`q` with `-q > -p`, i.e. the bids **strictly below** `p` — in spite of the
source comment "Better prices are HIGHER".  For SELL the asks carry no key
function and `irange(maximum=order_price, inclusive=(False, False))`
selects the asks strictly below `p`. -/
def OrderBook.estimate_quantity_ahead (b : OrderBook) (order_price : ℚ)
    (order_side : Side) : ℚ :=
  match order_side with
  | .BUY => ((b.bids.filter (fun p => p.1 < order_price)).map
      (fun p => (p.2.qty : ℚ))).sum
  | .SELL => ((b.asks.filter (fun p => p.1 < order_price)).map
      (fun p => (p.2.qty : ℚ))).sum

/-- The quantity at the same-side levels *strictly better* than the order
price, as claimed by the spec (§4.2): strictly higher bids for BUY,
strictly lower asks for SELL. -/
def specQtyAhead (b : OrderBook) (order_price : ℚ) (order_side : Side) : ℚ :=
  match order_side with
  | .BUY => ((b.bids.filter (fun p => p.1 > order_price)).map
      (fun p => (p.2.qty : ℚ))).sum
  | .SELL => ((b.asks.filter (fun p => p.1 < order_price)).map
      (fun p => (p.2.qty : ℚ))).sum

/-! ### Execution handler (`src/core/execution.py`) -/

/-- The execution parameters read from `params` in `ExecutionHandler.__init__`. -/
structure ExecParams where
  tick_size : ℚ
  latency_data_signal_ns : ℤ
  latency_signal_order_ns : ℤ
  commission_per_contract : ℚ
deriving DecidableEq, Repr

/-- One record of `pending_limit_orders`:
`{'order': .., 'qty_ahead': .., 'qty_filled': ..}`. -/
structure LimitEntry where
  order : OrderEvent
  qty_ahead : ℚ
  qty_filled : ℤ
deriving DecidableEq, Repr

/-- One record of `linked_exit_orders`: `{'stop_id': .., 'target_id': ..}`. -/
structure LinkedExits where
  stop_id : Option OrderId
  target_id : Option OrderId
deriving DecidableEq, Repr

/-- The execution handler's mutable state, together with the order book it
holds a reference to and the controller's event queue it appends to. -/
structure ExecState where
  order_counter : ℕ
  submitted_orders : List (OrderId × OrderEvent)
  pending_limit_orders : List (OrderId × LimitEntry)
  pending_stop_orders : List (OrderId × OrderEvent)
  linked_exit_orders : List (OrderId × LinkedExits)
  book : OrderBook
  queue : List Event
deriving DecidableEq, Repr

/-- `_generate_order_id`: increment the counter, then build the id. -/
def genOrderId (s : ExecState) (pfx : String) : OrderId × ExecState :=
  let c := s.order_counter + 1
  (OrderId.gen pfx c, { s with order_counter := c })

/-- The status `OrderEvent` `_update_order_status` builds from the stored
order: every field is copied from the stored order except the explicit
status, timestamp and `filled_quantity` (the stored order's own
`filled_quantity` mutation touches no other field, so the event can be
described from the pre-mutation order). -/
def mkStatusEvent (oid : OrderId) (o : OrderEvent) (status : OrderStatus)
    (timestamp : ℤ) (filled_qty : Option ℤ) : OrderEvent :=
  { timestamp := timestamp, order_id := oid, status := status
    strategy_id := o.strategy_id, symbol := o.symbol
    quantity := o.quantity, order_type := o.order_type
    direction := o.direction, limit_price := o.limit_price
    stop_price := o.stop_price
    filled_quantity := filled_qty.getD o.filled_quantity
    linked_stop_price := o.linked_stop_price
    linked_target_price := o.linked_target_price
    parent_order_id := o.parent_order_id }

/-- `_update_order_status`: look the order up in `submitted_orders` (a miss
is logged and ignored), mutate its `filled_quantity` for PARTIALLY_FILLED /
FILLED, enqueue the status `OrderEvent`, and drop terminal orders from
`submitted_orders`. -/
def updateOrderStatus (s : ExecState) (order_id : OrderId)
    (status : OrderStatus) (timestamp : ℤ) (filled_qty : Option ℤ) :
    ExecState :=
  match dictGet s.submitted_orders order_id with
  | none => s
  | some o =>
    let current_filled := filled_qty.getD o.filled_quantity
    let o' :=
      if status = .PARTIALLY_FILLED then { o with filled_quantity := current_filled }
      else if status = .FILLED then { o with filled_quantity := o.quantity }
      else o
    let status_event : OrderEvent :=
      { timestamp := timestamp, order_id := order_id, status := status
        strategy_id := o'.strategy_id, symbol := o'.symbol
        quantity := o'.quantity, order_type := o'.order_type
        direction := o'.direction, limit_price := o'.limit_price
        stop_price := o'.stop_price, filled_quantity := current_filled
        linked_stop_price := o'.linked_stop_price
        linked_target_price := o'.linked_target_price
        parent_order_id := o'.parent_order_id }
    let submitted₁ := dictSet s.submitted_orders order_id o'
    let submitted₂ :=
      if status = .FILLED ∨ status = .REJECTED ∨ status = .CANCELLED then
        dictDel submitted₁ order_id
      else submitted₁
    { s with submitted_orders := submitted₂
             queue := s.queue ++ [Event.order status_event] }

/-- `_reject_order`. -/
def rejectOrder (s : ExecState) (o : OrderEvent) : ExecState :=
  updateOrderStatus s o.order_id .REJECTED o.timestamp none

/-- `process_signal`: apply both latencies, create the PENDING_SUBMIT entry
order under a fresh `ENTRY` id, record it and enqueue it, and — when the
signal carries a (truthy) linked stop or target price — register an empty
linkage record. -/
def processSignal (p : ExecParams) (s : ExecState) (e : SignalEvent) :
    ExecState :=
  let arrival := e.timestamp + p.latency_data_signal_ns + p.latency_signal_order_ns
  let (entry_id, s₁) := genOrderId s "ENTRY"
  let entry_order : OrderEvent :=
    { timestamp := arrival, order_id := entry_id
      strategy_id := e.strategy_id, symbol := e.symbol
      quantity := e.quantity, order_type := e.order_type
      direction := e.direction, limit_price := e.limit_price
      stop_price := e.stop_price, filled_quantity := 0
      linked_stop_price := e.signal_stop_price
      linked_target_price := e.signal_target_price
      status := .PENDING_SUBMIT, parent_order_id := none }
  let s₂ := { s₁ with
    submitted_orders := dictSet s₁.submitted_orders entry_id entry_order
    queue := s₁.queue ++ [Event.order entry_order] }
  if pyTruthyQ e.signal_stop_price || pyTruthyQ e.signal_target_price then
    { s₂ with linked_exit_orders :=
        dictSet s₂.linked_exit_orders entry_id ⟨none, none⟩ }
  else s₂

/-- The book walk of `_execute_market_order`: consume from the given side
outward, returning `(filled_qty, total_value, remaining side)`.  Each level
fills `min(qty_to_fill, available)`; fully consumed levels are deleted;
the loop `break`s after the level on which `qty_to_fill` reaches zero. -/
def walkSide : ℤ → List (ℚ × Level) → ℤ × ℚ × List (ℚ × Level)
  | _, [] => (0, 0, [])
  | qty_to_fill, (price, lv) :: rest =>
    let f := min qty_to_fill lv.qty
    let newQty := lv.qty - f
    let keep := if newQty ≤ 0 then [] else [(price, { lv with qty := newQty })]
    if qty_to_fill - f = 0 then (f, f * price, keep ++ rest)
    else
      let r := walkSide (qty_to_fill - f) rest
      (f + r.1, f * price + r.2.1, keep ++ r.2.2)

/-- The side a market order walks: the asks for a BUY, the bids for a
SELL. -/
def bookOpposite (b : OrderBook) (direction : Side) : List (ℚ × Level) :=
  if direction = Side.BUY then b.asks else b.bids

/-- `_execute_market_order`: reject on an empty opposite side, else walk
it, recompute the BBO heads, and — when anything filled — enqueue one Fill
at the weighted average price followed by a FILLED / PARTIALLY_FILLED
status (a zero fill against a nonempty side is rejected as
"No liquidity consumed"). -/
def executeMarketOrder (p : ExecParams) (s : ExecState) (o : OrderEvent) :
    ExecState :=
  let book := s.book
  let side := bookOpposite book o.direction
  if side = [] then rejectOrder s o
  else
    let w := walkSide o.quantity side
    let filled := w.1
    let total_value := w.2.1
    let side' := w.2.2
    let bids' := if o.direction = Side.BUY then book.bids else side'
    let asks' := if o.direction = Side.BUY then side' else book.asks
    let book' := { book with
      bids := bids', asks := asks'
      best_bid := (bids'.head?).map Prod.fst
      best_ask := (asks'.head?).map Prod.fst }
    let s₁ := { s with book := book' }
    if filled > 0 then
      let avg_fill_price := total_value / (filled : ℚ)
      let commission := p.commission_per_contract * (filled : ℚ)
      let fill : FillEvent :=
        { timestamp := o.timestamp, order_id := o.order_id
          strategy_id := o.strategy_id, symbol := o.symbol
          direction := o.direction, quantity_filled := filled
          fill_price := avg_fill_price, commission := commission
          linked_stop_price := o.linked_stop_price
          linked_target_price := o.linked_target_price }
      let s₂ := { s₁ with queue := s₁.queue ++ [Event.fill fill] }
      let final_status : OrderStatus :=
        if filled = o.quantity then .FILLED else .PARTIALLY_FILLED
      updateOrderStatus s₂ o.order_id final_status o.timestamp (some filled)
    else rejectOrder s₁ o

/-- `_handle_limit_order_placement`: a limit crossing the BBO is executed
as a market order; otherwise the initial queue estimate
`qty_ahead + same-price resting level qty` is stored in
`pending_limit_orders`.  (A LIMIT order with no `limit_price` would raise
in the source when estimating the queue; we read the price as `0` there —
no claim exercises that branch.) -/
def handleLimitOrderPlacement (p : ExecParams) (s : ExecState)
    (o : OrderEvent) : ExecState :=
  let book := s.book
  let bbo_bid := book.best_bid
  let bbo_ask := book.best_ask
  let lp := o.limit_price.getD 0
  let immediate_fill :=
    (o.direction = Side.BUY ∧ pyTruthyQ o.limit_price ∧ pyTruthyQ bbo_ask ∧
      lp ≥ bbo_ask.getD 0) ∨
    (o.direction = Side.SELL ∧ pyTruthyQ o.limit_price ∧ pyTruthyQ bbo_bid ∧
      lp ≤ bbo_bid.getD 0)
  if immediate_fill then executeMarketOrder p s o
  else
    let qty_better := book.estimate_quantity_ahead lp o.direction
    let book_side_for_order := if o.direction = Side.BUY then Side.SELL else Side.BUY
    let qty_at_level := ((book.get_level_data lp book_side_for_order).elim 0 Level.qty : ℤ)
    let entry : LimitEntry := ⟨o, qty_better + (qty_at_level : ℚ), 0⟩
    { s with pending_limit_orders := dictSet s.pending_limit_orders o.order_id entry }

/-- `_handle_stop_order_placement`: reject when `stop_price is None`, else
rest the order in `pending_stop_orders`. -/
def handleStopOrderPlacement (s : ExecState) (o : OrderEvent) : ExecState :=
  match o.stop_price with
  | none => rejectOrder s o
  | some _ =>
    { s with pending_stop_orders := dictSet s.pending_stop_orders o.order_id o }

/-- `_cancel_linked_stop`: find the filled target in `submitted_orders`
(by the time `check_limit_fills` calls this the FILLED status update has
already deleted it, so the lookup misses), follow `parent_order_id` to the
linkage record, and — when a pending stop sibling exists — drop it, emit
CANCELLED, and drop the linkage record. -/
def cancelLinkedStop (s : ExecState) (filled_target_order_id : OrderId)
    (timestamp : ℤ) : ExecState :=
  let target_order := dictGet s.submitted_orders filled_target_order_id
  let entry_id := target_order.bind OrderEvent.parent_order_id
  match entry_id with
  | none => s
  | some eid =>
    match dictGet s.linked_exit_orders eid with
    | none => s
    | some exits =>
      match exits.stop_id with
      | none => s
      | some stop_id =>
        if dictMem s.pending_stop_orders stop_id then
          let s₁ := { s with pending_stop_orders := dictDel s.pending_stop_orders stop_id }
          let s₂ := updateOrderStatus s₁ stop_id .CANCELLED timestamp none
          { s₂ with linked_exit_orders := dictDel s₂.linked_exit_orders eid }
        else s

/-- `_cancel_linked_target`: symmetric to `cancelLinkedStop`, from a
triggered stop to the pending limit target. -/
def cancelLinkedTarget (s : ExecState) (triggered_stop_order_id : OrderId)
    (timestamp : ℤ) : ExecState :=
  let stop_order := dictGet s.submitted_orders triggered_stop_order_id
  let entry_id := stop_order.bind OrderEvent.parent_order_id
  match entry_id with
  | none => s
  | some eid =>
    match dictGet s.linked_exit_orders eid with
    | none => s
    | some exits =>
      match exits.target_id with
      | none => s
      | some target_id =>
        if dictMem s.pending_limit_orders target_id then
          let s₁ := { s with pending_limit_orders := dictDel s.pending_limit_orders target_id }
          let s₂ := updateOrderStatus s₁ target_id .CANCELLED timestamp none
          { s₂ with linked_exit_orders := dictDel s₂.linked_exit_orders eid }
        else s

/-! #### `check_limit_fills`

The loop iterates a snapshot of `pending_limit_orders`.  For each entry
only its own key is ever deleted, and none of the helpers called inside
the loop reads `pending_limit_orders`, so the new pending map is a pure
`filterMap` of the snapshot while the queue / `submitted_orders` /
`pending_stop_orders` / `linked_exit_orders` effects fold over it. -/

/-- The match test: a BUY limit against a SELL trade at or below the
limit, a SELL limit against a BUY trade at or above the limit (a resting
entry always carries a limit price; a `None` one would raise in the
source and is read as `0` here). -/
def clfMatches (tr : TradeEvent) (e : LimitEntry) : Prop :=
  e.order.symbol = tr.symbol ∧
  ((e.order.direction = Side.BUY ∧ tr.side = Side.SELL ∧
      tr.price ≤ e.order.limit_price.getD 0) ∨
   (e.order.direction = Side.SELL ∧ tr.side = Side.BUY ∧
      tr.price ≥ e.order.limit_price.getD 0))

instance (tr : TradeEvent) (e : LimitEntry) : Decidable (clfMatches tr e) := by
  unfold clfMatches; infer_instance

/-- `trade_consumes`: the trade quantity at the limit price, `Decimal('inf')`
(modelled as `none`) when the trade printed through the limit. -/
def clfTradeConsumes (tr : TradeEvent) (e : LimitEntry) : Option ℚ :=
  if tr.price = e.order.limit_price.getD 0 then some (tr.quantity : ℚ) else none

/-- `int(min(max(0, trade_consumes - qty_ahead), qty_rem))`; with an
infinite `trade_consumes` the minimum is the integer `qty_rem` itself. -/
def clfFillQty (tr : TradeEvent) (e : LimitEntry) : ℤ :=
  let qty_rem := e.order.quantity - e.qty_filled
  match clfTradeConsumes tr e with
  | none => qty_rem
  | some t => pyInt (min (max 0 (t - e.qty_ahead)) (qty_rem : ℚ))

/-- `qty_ahead := max(0, qty_ahead - trade_consumes)` (zero when the trade
went through the limit). -/
def clfNewAhead (tr : TradeEvent) (e : LimitEntry) : ℚ :=
  match clfTradeConsumes tr e with
  | none => 0
  | some t => max 0 (e.qty_ahead - t)

/-- The pure per-entry outcome on `pending_limit_orders`: non-matching
entries are kept as they are; matching entries get the new queue estimate,
accumulate any fill, and are dropped exactly when `qty_filled` reaches the
order quantity. -/
def clfKeep (tr : TradeEvent) (pr : OrderId × LimitEntry) :
    Option (OrderId × LimitEntry) :=
  let e := pr.2
  if clfMatches tr e then
    let fq := clfFillQty tr e
    let e' := { e with qty_ahead := clfNewAhead tr e }
    if fq > 0 then
      let qf' := e.qty_filled + fq
      if qf' ≥ e.order.quantity then none
      else some (pr.1, { e' with qty_filled := qf' })
    else some (pr.1, e')
  else some pr

/-- The Fill event `check_limit_fills` enqueues for a matching entry:
always at the limit price, for the heuristic fill quantity. -/
def clfFillEvent (p : ExecParams) (tr : TradeEvent)
    (pr : OrderId × LimitEntry) : FillEvent :=
  { timestamp := tr.timestamp, order_id := pr.1
    strategy_id := pr.2.order.strategy_id, symbol := pr.2.order.symbol
    direction := pr.2.order.direction, quantity_filled := clfFillQty tr pr.2
    fill_price := pr.2.order.limit_price.getD 0
    commission := p.commission_per_contract * ((clfFillQty tr pr.2 : ℤ) : ℚ)
    linked_stop_price := none, linked_target_price := none }

/-- The per-entry queue / status / OCO effects of `check_limit_fills`
(everything except the `pending_limit_orders` bookkeeping). -/
def clfEffects (p : ExecParams) (tr : TradeEvent) (pr : OrderId × LimitEntry)
    (s : ExecState) : ExecState :=
  let e := pr.2
  if clfMatches tr e then
    let fq := clfFillQty tr e
    if fq > 0 then
      let qf' := e.qty_filled + fq
      let s₁ := { s with queue := s.queue ++ [Event.fill (clfFillEvent p tr pr)] }
      if qf' ≥ e.order.quantity then
        let s₂ := updateOrderStatus s₁ pr.1 .FILLED tr.timestamp (some qf')
        cancelLinkedStop s₂ pr.1 tr.timestamp
      else updateOrderStatus s₁ pr.1 .PARTIALLY_FILLED tr.timestamp (some qf')
    else s
  else s

/-- `check_limit_fills`. -/
def checkLimitFills (p : ExecParams) (tr : TradeEvent) (s : ExecState) :
    ExecState :=
  let entries := s.pending_limit_orders
  let s' := entries.foldl (fun acc pr => clfEffects p tr pr acc) s
  { s' with pending_limit_orders := entries.filterMap (clfKeep tr) }

/-! #### `check_stop_triggers` -/

/-- The trigger test: a SELL stop fires at or below its stop price, a BUY
stop at or above (resting stops always carry a stop price — placement
rejects `None`). -/
def cstTriggered (tr : TradeEvent) (o : OrderEvent) : Prop :=
  o.symbol = tr.symbol ∧
  ((o.direction = Side.SELL ∧ tr.price ≤ o.stop_price.getD 0) ∨
   (o.direction = Side.BUY ∧ tr.price ≥ o.stop_price.getD 0))

instance (tr : TradeEvent) (o : OrderEvent) : Decidable (cstTriggered tr o) := by
  unfold cstTriggered; infer_instance

/-- The per-entry effects of `check_stop_triggers` other than the removal
from `pending_stop_orders`: TRIGGERED status, OCO cancel of the linked
target, and the follow-up market child (skipped at zero quantity). -/
def cstEffects (p : ExecParams) (tr : TradeEvent) (pr : OrderId × OrderEvent)
    (s : ExecState) : ExecState :=
  let o := pr.2
  if cstTriggered tr o then
    let s₁ := updateOrderStatus s pr.1 .TRIGGERED tr.timestamp none
    let s₂ := cancelLinkedTarget s₁ pr.1 tr.timestamp
    let market_order : OrderEvent :=
      { timestamp := tr.timestamp + p.latency_signal_order_ns
        order_id := OrderId.mkt pr.1
        strategy_id := o.strategy_id, symbol := o.symbol
        quantity := o.quantity - o.filled_quantity
        order_type := .MARKET, direction := o.direction
        limit_price := none, stop_price := none, filled_quantity := 0
        status := .PENDING_SUBMIT, linked_stop_price := none
        linked_target_price := none, parent_order_id := some pr.1 }
    if market_order.quantity > 0 then
      { s₂ with
        submitted_orders := dictSet s₂.submitted_orders market_order.order_id market_order
        queue := s₂.queue ++ [Event.order market_order] }
    else s₂
  else s

/-- `check_stop_triggers`. -/
def checkStopTriggers (p : ExecParams) (tr : TradeEvent) (s : ExecState) :
    ExecState :=
  let entries := s.pending_stop_orders
  let s' := entries.foldl (fun acc pr => cstEffects p tr pr acc) s
  { s' with pending_stop_orders :=
      entries.filter (fun pr => ¬ cstTriggered tr pr.2) }

/-- `_activate_linked_exits`: on an entry fill with a registered linkage
record, create the STOP_MARKET and LIMIT children in the opposite
direction for the filled quantity, both delayed by the signal-order
latency and parented to the entry.  (This method is defined in the source
but never called by any code path.) -/
def activateLinkedExits (p : ExecParams) (s : ExecState)
    (entry_order_id : OrderId) (f : FillEvent) : ExecState :=
  match dictGet s.linked_exit_orders entry_order_id with
  | none => s
  | some exits =>
    let now := f.timestamp
    let exit_dir := if f.direction = Side.BUY then Side.SELL else Side.BUY
    let exit_qty := f.quantity_filled
    let s₁ :=
      if pyTruthyQ f.linked_stop_price ∧ ¬ pyTruthyId exits.stop_id then
        let (stop_id, sa) := genOrderId s "STOP"
        let stop_order : OrderEvent :=
          { timestamp := now + p.latency_signal_order_ns, order_id := stop_id
            strategy_id := f.strategy_id, symbol := f.symbol
            quantity := exit_qty, order_type := .STOP_MARKET
            direction := exit_dir, limit_price := none
            stop_price := f.linked_stop_price, filled_quantity := 0
            status := .PENDING_SUBMIT, linked_stop_price := none
            linked_target_price := none, parent_order_id := some entry_order_id }
        { sa with
          linked_exit_orders := dictSet sa.linked_exit_orders entry_order_id
            { exits with stop_id := some stop_id }
          submitted_orders := dictSet sa.submitted_orders stop_id stop_order
          queue := sa.queue ++ [Event.order stop_order] }
      else s
    let exits₁ := (dictGet s₁.linked_exit_orders entry_order_id).getD exits
    if pyTruthyQ f.linked_target_price ∧ ¬ pyTruthyId exits₁.target_id then
      let (target_id, sb) := genOrderId s₁ "TARGET"
      let target_order : OrderEvent :=
        { timestamp := now + p.latency_signal_order_ns, order_id := target_id
          strategy_id := f.strategy_id, symbol := f.symbol
          quantity := exit_qty, order_type := .LIMIT
          direction := exit_dir, limit_price := f.linked_target_price
          stop_price := none, filled_quantity := 0
          status := .PENDING_SUBMIT, linked_stop_price := none
          linked_target_price := none, parent_order_id := some entry_order_id }
      { sb with
        linked_exit_orders := dictSet sb.linked_exit_orders entry_order_id
          { exits₁ with target_id := some target_id }
        submitted_orders := dictSet sb.submitted_orders target_id target_order
        queue := sb.queue ++ [Event.order target_order] }
    else s₁

/-- `execute_order`: ACCEPTED status, then dispatch on the order type. -/
def executeOrder (p : ExecParams) (s : ExecState) (o : OrderEvent) :
    ExecState :=
  let s₁ := updateOrderStatus s o.order_id .ACCEPTED o.timestamp none
  match o.order_type with
  | .MARKET => executeMarketOrder p s₁ o
  | .LIMIT => handleLimitOrderPlacement p s₁ o
  | .STOP_MARKET => handleStopOrderPlacement s₁ o

/-! ### Portfolio (`src/core/portfolio.py`) -/

/-- The portfolio's constructor parameters. -/
structure PortfolioParams where
  initial_capital : ℚ
  commission_per_contract : ℚ
  tick_value : ℚ
  tick_size : ℚ
deriving DecidableEq, Repr

/-- One record of `open_positions`. -/
structure OpenPos where
  entry_time : ℤ
  entry_price : ℚ
  quantity : ℤ
  direction : String
  commission : ℚ
deriving DecidableEq, Repr

/-- One closed-trade record appended to `trade_log` (the source renders the
times through `datetime.fromtimestamp`; we keep the raw nanoseconds). -/
structure TradeRecord where
  symbol : String
  entry_time : ℤ
  exit_time : ℤ
  direction : String
  entry_price : ℚ
  exit_price : ℚ
  quantity : ℤ
  pnl : ℚ
  commission : ℚ
deriving DecidableEq, Repr

/-- The portfolio state (`holdings` is a `defaultdict(int)`: absent keys
read as `0`). -/
structure PortfolioState where
  cash : ℚ
  holdings : List (String × ℤ)
  positions_avg_price : List (String × ℚ)
  realized_pnl : ℚ
  equity_curve : List (ℤ × ℚ)
  last_market_price : List (String × ℚ)
  trade_log : List TradeRecord
  open_positions : List (String × OpenPos)
deriving DecidableEq, Repr

/-- `Portfolio.__init__`. -/
def mkPortfolio (p : PortfolioParams) : PortfolioState :=
  { cash := p.initial_capital, holdings := [], positions_avg_price := []
    realized_pnl := 0, equity_curve := [(0, p.initial_capital)]
    last_market_price := [], trade_log := [], open_positions := [] }

/-- `Portfolio.update_market_price`. -/
def updateMarketPrice (st : PortfolioState) (e : TradeEvent) :
    PortfolioState :=
  { st with last_market_price := dictSet st.last_market_price e.symbol e.price }

/-- `Portfolio._update_equity`: cash plus tick-valued unrealized P&L over
the held symbols; append a curve point for a strictly newer timestamp,
else overwrite the tail entry when the equity value changed. -/
def updateEquity (p : PortfolioParams) (st : PortfolioState) (timestamp : ℤ) :
    PortfolioState :=
  let unrealized := (st.holdings.map (fun pr =>
    match dictGet st.last_market_price pr.1, dictGet st.positions_avg_price pr.1 with
    | some lmp, some avg =>
      if pr.2 ≠ 0 then ((lmp - avg) / p.tick_size) * p.tick_value * (pr.2 : ℚ) else 0
    | _, _ => 0)).sum
  let current_equity := st.cash + unrealized
  match st.equity_curve.getLast? with
  | none => { st with equity_curve := st.equity_curve ++ [(timestamp, current_equity)] }
  | some (t, v) =>
    if t < timestamp then
      { st with equity_curve := st.equity_curve ++ [(timestamp, current_equity)] }
    else if current_equity ≠ v then
      { st with equity_curve := st.equity_curve.dropLast ++ [(timestamp, current_equity)] }
    else st

/-- The position / P&L bookkeeping of `Portfolio.update_fill` after the
cash line: the closing-or-flipping / opening-or-adding branches and the
holdings update (split out of `updateFill` so the cash flow can be stated
on its own; `st₁` is the state with the cash already debited). -/
def updateFillBook (p : PortfolioParams) (st₁ : PortfolioState)
    (e : FillEvent) : PortfolioState :=
  let symbol := e.symbol
  let qty := e.quantity_filled
  let price := e.fill_price
  let comm := e.commission
  let direction : ℤ := if e.direction = Side.BUY then 1 else -1
  let pos_change := qty * direction
  let current_pos := (dictGet st₁.holdings symbol).getD 0
  let new_pos := current_pos + pos_change
  let st₂ :=
    if current_pos ≠ 0 ∧ new_pos * current_pos ≤ 0 then
      -- closing or flipping
      let qty_closed := min current_pos.natAbs.cast qty
      match dictGet st₁.open_positions symbol with
      | some entry_details =>
        let avg_entry_price := entry_details.entry_price
        let pnl_dir : ℚ := if entry_details.direction = "LONG" then 1 else -1
        let pnl := (price - avg_entry_price) * pnl_dir * (qty_closed : ℚ)
        let realized := (pnl / p.tick_size) * p.tick_value
        let rec_ : TradeRecord :=
          { symbol := symbol, entry_time := entry_details.entry_time
            exit_time := e.timestamp, direction := entry_details.direction
            entry_price := avg_entry_price, exit_price := price
            quantity := qty_closed, pnl := realized
            commission := entry_details.commission + comm }
        let stA := { st₁ with realized_pnl := st₁.realized_pnl + realized
                              trade_log := st₁.trade_log ++ [rec_] }
        if new_pos = 0 then
          { stA with open_positions := dictDel stA.open_positions symbol
                     positions_avg_price := dictDel stA.positions_avg_price symbol }
        else
          -- flipped
          let op : OpenPos :=
            { entry_time := e.timestamp, entry_price := price
              quantity := new_pos
              direction := if new_pos > 0 then "LONG" else "SHORT"
              commission := comm }
          { stA with positions_avg_price := dictSet stA.positions_avg_price symbol price
                     open_positions := dictSet stA.open_positions symbol op }
      | none => st₁
    else if new_pos ≠ 0 then
      -- opening or adding
      if current_pos = 0 then
        let op : OpenPos :=
          { entry_time := e.timestamp, entry_price := price
            quantity := new_pos
            direction := if new_pos > 0 then "LONG" else "SHORT"
            commission := comm }
        { st₁ with positions_avg_price := dictSet st₁.positions_avg_price symbol price
                   open_positions := dictSet st₁.open_positions symbol op }
      else
        let old_val := ((dictGet st₁.positions_avg_price symbol).getD 0) * (current_pos : ℚ)
        let new_val := price * (pos_change : ℚ)
        let avg' := (old_val + new_val) / (new_pos : ℚ)
        let op' := match dictGet st₁.open_positions symbol with
          | some op => { op with quantity := new_pos, commission := op.commission + comm }
          | none => { entry_time := 0, entry_price := 0, quantity := new_pos
                      direction := "", commission := comm : OpenPos }
        { st₁ with positions_avg_price := dictSet st₁.positions_avg_price symbol avg'
                   open_positions := dictSet st₁.open_positions symbol op' }
    else st₁
  let holdings' :=
    let h := dictSet st₂.holdings symbol new_pos
    if new_pos = 0 then dictDel h symbol else h
  { st₂ with holdings := holdings' }

/-- `Portfolio.update_fill`: debit the cash, apply the position
bookkeeping, update the equity curve. -/
def updateFill (p : PortfolioParams) (st : PortfolioState) (e : FillEvent) :
    PortfolioState :=
  let direction : ℤ := if e.direction = Side.BUY then 1 else -1
  let st₁ := { st with cash :=
    st.cash - (e.fill_price * (e.quantity_filled : ℚ) * (direction : ℚ) + e.commission) }
  updateEquity p (updateFillBook p st₁ e) e.timestamp

/-! ### Strategy base state (`src/strategy/base.py`)

The footprint diagonal signal computation itself (`_calculate_and_signal`)
is irrelevant to every claim; in the controller step below the
`on_market_data` callback is an arbitrary parameter producing the updated
strategy state and the signal events it appends.  The position / lock
bookkeeping (`on_fill`, `on_order_status`) is embedded from the source. -/

structure StratCore where
  strategy_id : String
  active_order_id : Option String
  current_position : ℤ
deriving DecidableEq, Repr

/-- `FootprintDiagonalRatioStrategy.on_fill`. -/
def stratOnFill (c : StratCore) (e : FillEvent) : StratCore :=
  if e.strategy_id ≠ c.strategy_id then c
  else
    let dm : ℤ := if e.direction = Side.BUY then 1 else -1
    let pos := c.current_position + e.quantity_filled * dm
    { c with current_position := pos
             active_order_id := if pos = 0 then none else c.active_order_id }

/-- `FootprintDiagonalRatioStrategy.on_order_status`: release the one-slot
lock on a terminal status of a top-level (parentless) order. -/
def stratOnOrderStatus (c : StratCore) (e : OrderEvent) : StratCore :=
  if e.strategy_id ≠ c.strategy_id then c
  else if (e.status = .FILLED ∨ e.status = .REJECTED ∨ e.status = .CANCELLED) ∧
      ¬ pyTruthyId e.parent_order_id then
    { c with active_order_id := none }
  else c

/-! ### Controller dispatch (`src/backtest.py`, `BacktestController.run`)

The per-event dispatch of the run loop.  `σ` is the strategy's bar /
volume-profile state and `onMD` its `on_market_data` callback — an
arbitrary function returning the updated strategy state and whatever
signal events it appends to the controller queue; every theorem below
quantifies over it.  Note the FILL branch: the source calls only
`portfolio.update_fill` and `strategy.on_fill` — the execution handler's
`_activate_linked_exits` is never invoked. -/

structure RunState (σ : Type) where
  exec : ExecState
  port : PortfolioState
  strat : StratCore
  stratData : σ
  current_time : ℤ

/-- One iteration of the `for event in merged_stream` loop body. -/
def stepDispatch {σ : Type} (p : ExecParams) (pp : PortfolioParams)
    (onMD : TradeEvent → σ → StratCore → σ × StratCore × List SignalEvent)
    (e : Event) (st : RunState σ) : RunState σ :=
  let st := { st with current_time := e.ts }
  match e with
  | .signal sg => { st with exec := processSignal p st.exec sg }
  | .order o =>
    if o.status = .PENDING_SUBMIT then
      { st with exec := executeOrder p st.exec o }
    else
      -- portfolio.on_order_status only logs
      { st with strat := stratOnOrderStatus st.strat o }
  | .fill f =>
    { st with port := updateFill pp st.port f
              strat := stratOnFill st.strat f }
  | .depth d =>
    { st with exec := { st.exec with book := st.exec.book.process_depth_event d } }
  | .trade tr =>
    let port₁ := updateMarketPrice st.port tr
    let md := onMD tr st.stratData st.strat
    let exec₁ := { st.exec with queue := st.exec.queue ++ md.2.2.map Event.signal }
    let exec₂ := checkLimitFills p tr exec₁
    let exec₃ := checkStopTriggers p tr exec₂
    { st with port := port₁, stratData := md.1, strat := md.2.1, exec := exec₃ }

/-! ### The merged event traversal (`BacktestController.run`)

`run` builds `heapq.merge(self.event_queue, market_stream)` **once**: the
endogenous heap list at merge time (empty, or the three synthetic events
of `_run_test_scenario`) is merged with the pre-sorted market stream.
Events appended after the merge point never enter this one-shot traversal
(the source comment acknowledges the single-pass loop).  `heapq.merge`
yields from the second iterable exactly when its head compares `<` to the
first's head; the element order `Event.__lt__` lives in the missing
`domain/events.py` — per spec §3 it is the lexicographic key
`(timestamp, kind_priority, sequence)`, so below we quantify over any
comparison `lt` whose primary key is the timestamp. -/

/-- `heapq.merge` of two iterables under the comparison `lt` (the second
stream's head is taken exactly when it is strictly smaller). -/
def mergeEvents (lt : Event → Event → Bool) : List Event → List Event → List Event
  | [], ms => ms
  | a :: as, [] => a :: as
  | a :: as, b :: bs =>
    if lt b a then b :: mergeEvents lt (a :: as) bs
    else a :: mergeEvents lt as (b :: bs)
termination_by l₁ l₂ => l₁.length + l₂.length

/-- `heapq._siftdown` after an append: bubble the element at the given
index up toward the root while it compares `<` to its parent. -/
def siftUp (lt : Event → Event → Bool) : ℕ → List Event → List Event
  | 0, l => l
  | (i+1), l =>
    let par := i / 2
    match l.get? (i+1), l.get? par with
    | some c, some q =>
      if lt c q then siftUp lt par ((l.set (i+1) q).set par c) else l
    | _, _ => l
termination_by i _ => i

/-- `heapq.heappush` on the controller's plain-list heap
(`BacktestController._add_event`). -/
def heapPush (lt : Event → Event → Bool) (l : List Event) (v : Event) :
    List Event :=
  siftUp lt l.length (l ++ [v])

/-- The three synthetic events injected by
`BacktestController._run_test_scenario`: a seed trade at `ts=1`, the
bracket signal at `ts=2` (SELL variant for a `short` scenario), and the
exit trade at `ts=3` (target price for a `target` scenario, else the stop
price). -/
def scenarioEventList (sym sid : String) (isShort isTarget : Bool) :
    List Event :=
  let base_price : ℚ := 5950.50
  let t1 : TradeEvent :=
    { timestamp := 1, symbol := sym, price := base_price, quantity := 1
      side := Side.BUY }
  let direction := if isShort then Side.SELL else Side.BUY
  let trigger_price : ℚ := if isShort then 5950.75 else 5950.25
  let stop_price : ℚ := if isShort then 5953.50 else 5947.50
  let target_price : ℚ := if isShort then 5943.875 else 5956.625
  let sig : SignalEvent :=
    { timestamp := 2, strategy_id := sid, symbol := sym
      direction := direction, order_type := .MARKET, quantity := 1
      limit_price := none, stop_price := none
      signal_trigger_price := some trigger_price
      signal_stop_price := some stop_price
      signal_target_price := some target_price }
  let exit_price := if isTarget then target_price else stop_price
  let aggressor := if direction = Side.SELL then Side.BUY else Side.SELL
  let t3 : TradeEvent :=
    { timestamp := 3, symbol := sym, price := exit_price, quantity := 10
      side := aggressor }
  [Event.trade t1, Event.signal sig, Event.trade t3]

/-- The heap list built by the three `_add_event` pushes of
`_run_test_scenario`. -/
def scenarioQueue (lt : Event → Event → Bool) (sym sid : String)
    (isShort isTarget : Bool) : List Event :=
  (scenarioEventList sym sid isShort isTarget).foldl (heapPush lt) []

/-- The controller's endogenous list at the moment `heapq.merge` is built:
empty without a test scenario, else the scenario heap. -/
def initialQueue (lt : Event → Event → Bool)
    (scenario : Option (Bool × Bool)) (sym sid : String) : List Event :=
  match scenario with
  | none => []
  | some (isShort, isTarget) => scenarioQueue lt sym sid isShort isTarget

/-- The sequence of events the run loop dispatches (up to the `max_events`
prefix cut): the one-shot merge of the endogenous list with the market
stream. -/
def dispatchedEvents (lt : Event → Event → Bool)
    (scenario : Option (Bool × Bool)) (sym sid : String)
    (ms : List Event) : List Event :=
  mergeEvents lt (initialQueue lt scenario sym sid) ms

/-! ### Event observation helpers -/

/-- Is the event a Fill? -/
def isFillEv : Event → Bool
  | .fill _ => true
  | _ => false

/-- Is the event an order status event with the given status? -/
def statusIs (st : OrderStatus) : Event → Bool
  | .order o => o.status = st
  | _ => false

/-! ### Specification-side characterizations used by the theorems -/

/-- The quantity a market order for `q` consumes from each level of the
walked side, outermost first (spec §4.2 `walk_liquidity`): each level
yields `min(remaining, level qty)`. -/
def consumedLevels : ℤ → List (ℚ × Level) → List (ℚ × ℤ)
  | _, [] => []
  | q, (price, lv) :: rest =>
    let c := min q lv.qty
    (price, c) :: consumedLevels (q - c) rest

/-- The side remaining after those consumptions, with fully consumed
levels deleted. -/
def remainingSide : ℤ → List (ℚ × Level) → List (ℚ × Level)
  | _, [] => []
  | q, (price, lv) :: rest =>
    let c := min q lv.qty
    (if lv.qty - c ≤ 0 then [] else [(price, { lv with qty := lv.qty - c })]) ++
      remainingSide (q - c) rest

/-- Total quantity consumed. -/
def consumedTotal (q : ℤ) (side : List (ℚ × Level)) : ℤ :=
  ((consumedLevels q side).map Prod.snd).sum

/-- Total value (consumed quantity · price) of the consumed levels. -/
def consumedValue (q : ℤ) (side : List (ℚ × Level)) : ℚ :=
  ((consumedLevels q side).map (fun pc => ((pc.2 : ℤ) : ℚ) * pc.1)).sum

/-- The fill direction sign of spec §4.4: `+1` for BUY, `−1` for SELL. -/
def fillDir (e : FillEvent) : ℚ :=
  if e.direction = Side.BUY then 1 else -1

/-- The spec's §4.3 queue-heuristic fill quantity
`clamp(trade_consumes − qty_ahead, 0, qty_remaining)` over the integers,
with `trade_consumes = +∞` (`none`) clamping to the full remainder. -/
def specClampFill (trade_consumes : Option ℤ) (qty_ahead qty_rem : ℤ) : ℤ :=
  match trade_consumes with
  | none => qty_rem
  | some t => min qty_rem (max 0 (t - qty_ahead))

/-- The spec-side `trade_consumes` for a limit entry, as an integer. -/
def specConsumes (tr : TradeEvent) (e : LimitEntry) : Option ℤ :=
  if tr.price = e.order.limit_price.getD 0 then some tr.quantity else none

/-- The spec-side updated queue estimate
`max(0, qty_ahead − trade_consumes)` over the integers. -/
def specNewAhead (trade_consumes : Option ℤ) (qty_ahead : ℤ) : ℤ :=
  match trade_consumes with
  | none => 0
  | some t => max 0 (qty_ahead - t)

/-- No trace of the order id in the execution state: it is pending on
neither side table, no queued PENDING_SUBMIT order (or its would-be
`_MKT` child) carries it, no resting stop could spawn it, and the id
generator can no longer produce it.  This is exactly the state left
behind by a partially filled market order, and `stepDispatch` preserves
it. -/
def execQuiescent (id : OrderId) (s : ExecState) : Prop :=
  (¬ dictMem s.pending_limit_orders id) ∧
  (∀ pr ∈ s.pending_stop_orders, pr.1 ≠ id ∧ OrderId.mkt pr.1 ≠ id) ∧
  (∀ o : OrderEvent, Event.order o ∈ s.queue → o.status = .PENDING_SUBMIT →
    o.order_id ≠ id ∧ (o.order_type = .STOP_MARKET → OrderId.mkt o.order_id ≠ id)) ∧
  id.counterOf ≤ s.order_counter

/-- The constraint a dispatched event must satisfy not to concern `id`:
the same condition `execQuiescent`'s queue clause imposes, so it holds for
every event the quiescent queue can deliver and trivially for market
events. -/
def evOrderOk (id : OrderId) (e : Event) : Prop :=
  ∀ o : OrderEvent, e = Event.order o → o.status = .PENDING_SUBMIT →
    o.order_id ≠ id ∧ (o.order_type = .STOP_MARKET → OrderId.mkt o.order_id ≠ id)

/-- Between two execution states: the record stored for `id` in
`submitted_orders` is untouched and no Fill or status event for `id` was
enqueued. -/
def noNewForId (id : OrderId) (s s' : ExecState) : Prop :=
  dictGet s'.submitted_orders id = dictGet s.submitted_orders id ∧
  (∀ f : FillEvent, Event.fill f ∈ s'.queue →
    Event.fill f ∈ s.queue ∨ f.order_id ≠ id) ∧
  (∀ oe : OrderEvent, Event.order oe ∈ s'.queue →
    Event.order oe ∈ s.queue ∨ oe.order_id ≠ id)

/-! ### Concrete fixtures for the counterexample / divergence theorems -/

/-- Execution parameters of the spec's §8 scenarios: `tick_size = 0.25`,
`commission = 2.50`, latencies 100 µs and 500 µs. -/
def fixParams : ExecParams :=
  { tick_size := 1/4, latency_data_signal_ns := 100000
    latency_signal_order_ns := 500000, commission_per_contract := 5/2 }

/-- An empty book for states whose book is irrelevant. -/
def emptyBook : OrderBook :=
  { symbol := "MES", tick_size := 1/4, bids := [], asks := []
    last_update_time := 0, best_bid := none, best_ask := none }

def fixEntryId : OrderId := .gen "ENTRY" 1
def fixStopId : OrderId := .gen "STOP" 2
def fixTargetId : OrderId := .gen "TARGET" 3

/-- The long-target entry order of scenario §8.1: MARKET BUY 1 with linked
stop 5947.50 and target 5956.625. -/
def fixEntryOrder : OrderEvent :=
  { timestamp := 600002, order_id := fixEntryId, strategy_id := "S"
    symbol := "MES", quantity := 1, order_type := .MARKET
    direction := .BUY, limit_price := none, stop_price := none
    filled_quantity := 0, status := .PENDING_SUBMIT
    linked_stop_price := some (5947.50 : ℚ)
    linked_target_price := some (5956.625 : ℚ), parent_order_id := none }

/-- The entry fill for `fixEntryOrder` at the synthetic best ask. -/
def fixEntryFill : FillEvent :=
  { timestamp := 600002, order_id := fixEntryId, strategy_id := "S"
    symbol := "MES", direction := .BUY, quantity_filled := 1
    fill_price := (5950.25 : ℚ), commission := 5/2
    linked_stop_price := some (5947.50 : ℚ)
    linked_target_price := some (5956.625 : ℚ) }

/-- The execution state right after the entry fill was generated: the
entry is recorded with an empty linkage record and nothing is pending. -/
def c1Exec : ExecState :=
  { order_counter := 1
    submitted_orders := [(fixEntryId, fixEntryOrder)]
    pending_limit_orders := [], pending_stop_orders := []
    linked_exit_orders := [(fixEntryId, ⟨none, none⟩)]
    book := emptyBook, queue := [] }

/-- A `RunState` around `c1Exec` (the strategy bar state is irrelevant). -/
def c1Run : RunState Unit :=
  { exec := c1Exec, port := mkPortfolio ⟨100000, 5/2, 25/2, 1/4⟩
    strat := { strategy_id := "S", active_order_id := some "PENDING_ENTRY"
               current_position := 0 }
    stratData := (), current_time := 600002 }

/-- The STOP_MARKET child `_activate_linked_exits` would create for
`fixEntryFill` from `c1Exec` (fresh id counter 2, signal-order latency). -/
def c1StopChild : OrderEvent :=
  { timestamp := 600002 + 500000, order_id := .gen "STOP" 2
    strategy_id := "S", symbol := "MES", quantity := 1
    order_type := .STOP_MARKET, direction := .SELL, limit_price := none
    stop_price := some (5947.50 : ℚ), filled_quantity := 0
    status := .PENDING_SUBMIT, linked_stop_price := none
    linked_target_price := none, parent_order_id := some fixEntryId }

/-- The LIMIT child `_activate_linked_exits` would create next. -/
def c1TargetChild : OrderEvent :=
  { timestamp := 600002 + 500000, order_id := .gen "TARGET" 3
    strategy_id := "S", symbol := "MES", quantity := 1
    order_type := .LIMIT, direction := .SELL
    limit_price := some (5956.625 : ℚ), stop_price := none
    filled_quantity := 0, status := .PENDING_SUBMIT
    linked_stop_price := none, linked_target_price := none
    parent_order_id := some fixEntryId }

/-- The resting target (LIMIT SELL 1 @ 5956.625, parented to the entry). -/
def c2TargetOrder : OrderEvent :=
  { timestamp := 1100002, order_id := fixTargetId, strategy_id := "S"
    symbol := "MES", quantity := 1, order_type := .LIMIT
    direction := .SELL, limit_price := some (5956.625 : ℚ)
    stop_price := none, filled_quantity := 0, status := .PENDING_SUBMIT
    linked_stop_price := none, linked_target_price := none
    parent_order_id := some fixEntryId }

/-- The resting stop sibling (STOP_MARKET SELL 1 @ 5947.50). -/
def c2StopOrder : OrderEvent :=
  { timestamp := 1100002, order_id := fixStopId, strategy_id := "S"
    symbol := "MES", quantity := 1, order_type := .STOP_MARKET
    direction := .SELL, limit_price := none
    stop_price := some (5947.50 : ℚ), filled_quantity := 0
    status := .PENDING_SUBMIT, linked_stop_price := none
    linked_target_price := none, parent_order_id := some fixEntryId }

/-- The bracket state of scenario §8.1 just before the exit trade: target
resting with an empty queue ahead, stop resting, linkage populated. -/
def c2State : ExecState :=
  { order_counter := 3
    submitted_orders := [(fixTargetId, c2TargetOrder), (fixStopId, c2StopOrder)]
    pending_limit_orders := [(fixTargetId, ⟨c2TargetOrder, 0, 0⟩)]
    pending_stop_orders := [(fixStopId, c2StopOrder)]
    linked_exit_orders := [(fixEntryId, ⟨some fixStopId, some fixTargetId⟩)]
    book := emptyBook, queue := [] }

/-- The §8.1 exit trade: 10 @ 5956.625, BUY aggressor, which fully fills
the resting SELL target. -/
def c2Trade : TradeEvent :=
  { timestamp := 3, symbol := "MES", price := (5956.625 : ℚ), quantity := 10
    side := .BUY }

/-- A one-level ask book for the C4 counterexample. -/
def c4Book : OrderBook :=
  { symbol := "MES", tick_size := 1/4, bids := []
    asks := [((100 : ℚ), ⟨5, 1⟩)], last_update_time := 0
    best_bid := none, best_ask := some 100 }

/-- A zero-quantity MARKET BUY order. -/
def c4Order : OrderEvent :=
  { timestamp := 10, order_id := .gen "ENTRY" 1, strategy_id := "S"
    symbol := "MES", quantity := 0, order_type := .MARKET
    direction := .BUY, limit_price := none, stop_price := none
    filled_quantity := 0, status := .PENDING_SUBMIT
    linked_stop_price := none, linked_target_price := none
    parent_order_id := none }

/-- Execution state holding `c4Order` against the nonempty ask book. -/
def c4State : ExecState :=
  { order_counter := 1
    submitted_orders := [(c4Order.order_id, c4Order)]
    pending_limit_orders := [], pending_stop_orders := []
    linked_exit_orders := [], book := c4Book, queue := [] }

/-- A MARKET BUY 2 order used to witness the amended C4. -/
def c4wOrder : OrderEvent := { c4Order with quantity := 2 }

/-- Execution state holding `c4wOrder` against the nonempty ask book. -/
def c4wState : ExecState :=
  { c4State with submitted_orders := [(c4wOrder.order_id, c4wOrder)] }

/-- Execution state holding `c4Order` against an empty ask book (for the
rejected branch of a market order). -/
def c4eState : ExecState :=
  { c4State with book := { c4Book with asks := [], best_ask := none } }

/-- A MARKET BUY for 7 contracts against the 5 contracts of total ask
liquidity of `c4Book`: the over-sized market order scenario. -/
def c10Order : OrderEvent := { c4Order with quantity := 7 }

/-- Execution state holding `c10Order` against `c4Book`, otherwise empty. -/
def c10State : ExecState :=
  { c4State with submitted_orders := [(c10Order.order_id, c10Order)] }

/-- Portfolio parameters for the run-state fixture. -/
def c10PortParams : PortfolioParams :=
  { initial_capital := 100000, commission_per_contract := 5/2
    tick_value := 5/4, tick_size := 1/4 }

/-- A market trade dispatched after the partial fill. -/
def c10Trade : TradeEvent :=
  { timestamp := 20, symbol := "MES", price := 100, quantity := 3
    side := Side.SELL }

/-- The run state after the over-sized market order: the stored record
carries the partial `filled_quantity`, the ask side is consumed, and the
state is quiescent for the order id. -/
def c10Run : RunState Unit :=
  { exec := { order_counter := 1
              submitted_orders :=
                [(OrderId.gen "ENTRY" 1, { c10Order with filled_quantity := 5 })]
              pending_limit_orders := [], pending_stop_orders := []
              linked_exit_orders := []
              book := { c4Book with asks := [], best_ask := none }
              queue := [] }
    port := mkPortfolio c10PortParams
    strat := { strategy_id := "S", active_order_id := none, current_position := 0 }
    stratData := (), current_time := 10 }

/-- A book with bids above and below 100 for the C6 divergence. -/
def c6Book : OrderBook :=
  { symbol := "MES", tick_size := 1/4
    bids := [((101 : ℚ), ⟨5, 1⟩), ((99 : ℚ), ⟨7, 1⟩)], asks := []
    last_update_time := 0, best_bid := some 101, best_ask := none }

/-- An ask-side book for the C8 counterexample. -/
def c8Book : OrderBook :=
  { symbol := "MES", tick_size := 1/4, bids := []
    asks := [((100 : ℚ), ⟨2, 1⟩)], last_update_time := 0
    best_bid := none, best_ask := some 100 }

/-- A depth row with command code 4 and positive quantity (`flags = 0`
derives the ask side: `Side.BUY`). -/
def c8Event : DepthEvent :=
  { timestamp := 5, symbol := "MES", side := .BUY, price := (101 : ℚ)
    quantity := 3, num_orders := 1, command := OrderCommand.fromCode 4
    flags := 0 }

/-! ## Theorems -/

/-! ### C6 — queue-ahead estimation -/

/-- Claim C6 (code bug): `estimate_quantity_ahead(p, BUY)` is claimed — and
documented in the source itself — to sum the bid quantities at prices
strictly *greater* than `p`, but because `irange(minimum=p)` is filtered
through the bids' `-k` sort key it sums the bids strictly *below* `p`:
on a book with 5 lots bid at 101 and 7 lots bid at 99 it returns 7 where
the claim requires 5.  (The SELL side agrees with the claim.) -/
theorem C6_buy_queue_ahead_sums_lower_bids :
    OrderBook.estimate_quantity_ahead c6Book 100 Side.BUY = 7 ∧
    specQtyAhead c6Book 100 Side.BUY = 5 ∧
    OrderBook.estimate_quantity_ahead c6Book 100 Side.BUY ≠
      specQtyAhead c6Book 100 Side.BUY ∧
    OrderBook.estimate_quantity_ahead c6Book 100 Side.SELL =
      specQtyAhead c6Book 100 Side.SELL := by
  norm_num [OrderBook.estimate_quantity_ahead, specQtyAhead, c6Book]

/-! ### C2 — OCO cancellation of the stop sibling -/

/-- Claim C2 (code bug): when the resting linked target fully fills in
`check_limit_fills`, the FILLED status update has already deleted the
target from `submitted_orders`, so `_cancel_linked_stop`'s lookup misses:
the sibling stop stays in `pending_stop_orders`, no CANCELLED status is
enqueued, and the linkage record is not dropped — contradicting the
claimed OCO cancellation. -/
theorem C2_target_fill_does_not_cancel_sibling_stop :
    (checkLimitFills fixParams c2Trade c2State).pending_stop_orders =
      c2State.pending_stop_orders ∧
    (checkLimitFills fixParams c2Trade c2State).linked_exit_orders =
      c2State.linked_exit_orders ∧
    (checkLimitFills fixParams c2Trade c2State).queue.filter
      (statusIs .CANCELLED) = [] ∧
    ((checkLimitFills fixParams c2Trade c2State).queue.filter
      (statusIs .FILLED)).length = 1 ∧
    ¬ dictMem (checkLimitFills fixParams c2Trade c2State).pending_limit_orders
      fixTargetId := by
  norm_num [checkLimitFills, clfEffects, clfKeep, clfMatches, clfFillQty,
    clfTradeConsumes, clfNewAhead, cancelLinkedStop, updateOrderStatus,
    dictGet, dictSet, dictDel, dictMem, c2State, c2Trade, c2TargetOrder,
    c2StopOrder, fixParams, fixTargetId, fixStopId, fixEntryId, statusIs,
    pyInt, pyTruthyId]
  decide

/-! ### C1 — activation of linked exits on an entry fill -/

/-- Claim C1 (code bug): the run loop's Fill branch dispatches only to
`portfolio.update_fill` and `strategy.on_fill` — `_activate_linked_exits`
is never called from any code path — so dispatching the §8.1 entry fill
leaves the execution state (and hence its queue) unchanged and no
STOP_MARKET / LIMIT child is created, whereas the (dead)
`_activate_linked_exits` applied to that very fill would enqueue exactly
the claimed stop and target children at `ts + latency_signal_order`. -/
theorem C1_fill_dispatch_never_activates_linked_exits :
    (stepDispatch fixParams ⟨100000, 5/2, 25/2, 1/4⟩
      (fun _ u c => (u, c, [])) (Event.fill fixEntryFill) c1Run).exec =
      c1Run.exec ∧
    (activateLinkedExits fixParams c1Exec fixEntryId fixEntryFill).queue =
      [Event.order c1StopChild, Event.order c1TargetChild] := by
  constructor
  · rfl
  · norm_num [activateLinkedExits, genOrderId, dictGet, dictSet, pyTruthyQ,
      pyTruthyId, c1Exec, fixEntryId, fixEntryFill, fixEntryOrder,
      fixParams, c1StopChild, c1TargetChild]

/-! ### C8 — unknown depth command codes -/

/-- Claim C8 counterexample: a depth row with command code 4 and positive
quantity is *not* treated as an UPDATE — `OrderCommand` has an actual
member `UNKNOWN_4`, so the loader's `ValueError` fallback never fires and
`process_depth_event` matches neither command branch: the level at the
row's price is left unset. -/
theorem C8_counterexample_code4_leaves_book_unchanged :
    (c8Book.process_depth_event c8Event).asks = c8Book.asks ∧
    levelGet (c8Book.process_depth_event c8Event).asks c8Event.price = none ∧
    c8Event.command ≠ OrderCommand.UPDATE ∧
    c8Event.quantity > 0 := by
  decide

theorem levelGet_deleteLevel_self (l : List (ℚ × Level)) (price : ℚ) :
    levelGet (deleteLevel l price) price = none := by
  induction l with
  | nil => rfl
  | cons hd tl ih =>
    by_cases h : hd.1 = price <;>
      simp [deleteLevel, levelGet, List.filter, List.find?, h] at ih ⊢

theorem levelGet_insertBid_self (l : List (ℚ × Level)) (price : ℚ) (lv : Level) :
    levelGet (insertBid l price lv) price = some lv := by
  induction l with
  | nil => simp [insertBid, levelGet, List.find?]
  | cons hd tl ih =>
    obtain ⟨p, v⟩ := hd
    by_cases h1 : price > p
    · simp [insertBid, h1, levelGet, List.find?]
    · by_cases h2 : price = p
      · simp [insertBid, h1, h2, levelGet, List.find?]
      · have hne : ¬ p = price := fun hh => h2 hh.symm
        simp [insertBid, h1, h2, levelGet, List.find?, hne] at ih ⊢
        exact ih

theorem levelGet_insertAsk_self (l : List (ℚ × Level)) (price : ℚ) (lv : Level) :
    levelGet (insertAsk l price lv) price = some lv := by
  induction l with
  | nil => simp [insertAsk, levelGet, List.find?]
  | cons hd tl ih =>
    obtain ⟨p, v⟩ := hd
    by_cases h1 : price < p
    · simp [insertAsk, h1, levelGet, List.find?]
    · by_cases h2 : price = p
      · simp [insertAsk, h1, h2, levelGet, List.find?]
      · have hne : ¬ p = price := fun hh => h2 hh.symm
        simp [insertAsk, h1, h2, levelGet, List.find?, hne] at ih ⊢
        exact ih

/-- Claim C8 as amended: only command codes with *no* `OrderCommand`
member — anything outside 1..7 — fall back to UPDATE in the loader and
then behave as the claim describes (positive quantity sets the level,
nonpositive removes it); the codes 4..7 the claim names parse to the
placeholder members `UNKNOWN_4`..`UNKNOWN_7`, which `process_depth_event`
ignores: the ladders are left unchanged. -/
theorem C8_amended_unknown_commands (b : OrderBook) (e : DepthEvent) (c : ℤ)
    (hsym : e.symbol = b.symbol) (hts : b.last_update_time ≤ e.timestamp)
    (hcmd : e.command = OrderCommand.fromCode c) :
    ((4 ≤ c ∧ c ≤ 7) →
      (b.process_depth_event e).bids = b.bids ∧
      (b.process_depth_event e).asks = b.asks) ∧
    (¬ (1 ≤ c ∧ c ≤ 7) →
      e.command = OrderCommand.UPDATE ∧
      (let side' := if e.side = Side.SELL then (b.process_depth_event e).bids
        else (b.process_depth_event e).asks
       if e.quantity > 0 then levelGet side' e.price = some ⟨e.quantity, e.num_orders⟩
       else levelGet side' e.price = none)) := by
  have hguard : ¬ (e.symbol ≠ b.symbol ∨ e.timestamp < b.last_update_time) := by
    push_neg
    exact ⟨hsym, hts⟩
  constructor
  · rintro ⟨h4, h7⟩
    have hcases : c = 4 ∨ c = 5 ∨ c = 6 ∨ c = 7 := by omega
    have hcmd' : e.command = .UNKNOWN_4 ∨ e.command = .UNKNOWN_5 ∨
        e.command = .UNKNOWN_6 ∨ e.command = .UNKNOWN_7 := by
      rcases hcases with h | h | h | h <;>
        subst h <;> simp [OrderCommand.fromCode] at hcmd <;> simp [hcmd]
    unfold OrderBook.process_depth_event
    rw [if_neg hguard]
    rcases hcmd' with h | h | h | h <;> rw [h] <;>
      cases hside : e.side <;> simp
  · intro hout
    have hupd : OrderCommand.fromCode c = .UPDATE := by
      unfold OrderCommand.fromCode
      split_ifs with g1 g2 g3 g4 g5 g6 g7 <;> first | rfl | omega
    refine ⟨hcmd.trans hupd, ?_⟩
    have hcm : e.command = .UPDATE := hcmd.trans hupd
    unfold OrderBook.process_depth_event
    rw [if_neg hguard]
    by_cases hq : e.quantity > 0
    · have hq' : ¬ e.quantity ≤ 0 := by omega
      cases hside : e.side <;>
        simp [hcm, hq, hq', hside, levelGet_insertBid_self, levelGet_insertAsk_self]
    · have hq' : e.quantity ≤ 0 := by omega
      cases hside : e.side <;>
        simp [hcm, hq, hq', hside, levelGet_deleteLevel_self]

/-- Witness for `C8_amended_unknown_commands`: code 5 leaves a concrete
book unchanged, and code 9 behaves as an UPDATE setting the level. -/
theorem C8_amended_witness :
    ((4 ≤ (5:ℤ) ∧ (5:ℤ) ≤ 7) →
      (c8Book.process_depth_event { c8Event with command := OrderCommand.fromCode 5 }).bids = c8Book.bids ∧
      (c8Book.process_depth_event { c8Event with command := OrderCommand.fromCode 5 }).asks = c8Book.asks) ∧
    (¬ (1 ≤ (5:ℤ) ∧ (5:ℤ) ≤ 7) →
      ({ c8Event with command := OrderCommand.fromCode 5 } : DepthEvent).command = OrderCommand.UPDATE ∧
      (let side' := if ({ c8Event with command := OrderCommand.fromCode 5 } : DepthEvent).side = Side.SELL
          then (c8Book.process_depth_event { c8Event with command := OrderCommand.fromCode 5 }).bids
          else (c8Book.process_depth_event { c8Event with command := OrderCommand.fromCode 5 }).asks
       if ({ c8Event with command := OrderCommand.fromCode 5 } : DepthEvent).quantity > 0
         then levelGet side' ({ c8Event with command := OrderCommand.fromCode 5 } : DepthEvent).price =
           some ⟨({ c8Event with command := OrderCommand.fromCode 5 } : DepthEvent).quantity,
             ({ c8Event with command := OrderCommand.fromCode 5 } : DepthEvent).num_orders⟩
         else levelGet side' ({ c8Event with command := OrderCommand.fromCode 5 } : DepthEvent).price = none)) :=
  C8_amended_unknown_commands c8Book { c8Event with command := OrderCommand.fromCode 5 } 5
    (by decide) (by decide) rfl

/-! ### C4 — market order execution -/

/-- Claim C4 counterexample: a zero-quantity MARKET order against a
nonempty opposite side emits *no* Fill — the walk consumes nothing and the
order is REJECTED ("No liquidity consumed") — where the claim requires
exactly one Fill whenever the opposite side is nonempty. -/
theorem C4_counterexample_zero_qty_rejected :
    c4State.book.asks ≠ [] ∧
    (executeMarketOrder fixParams c4State c4Order).queue.filter isFillEv = [] ∧
    ((executeMarketOrder fixParams c4State c4Order).queue.filter
      (statusIs .REJECTED)).length = 1 := by
  decide

theorem updateEquity_cash (p : PortfolioParams) (st : PortfolioState)
    (ts : ℤ) : (updateEquity p st ts).cash = st.cash := by
  unfold updateEquity
  cases h : st.equity_curve.getLast? with
  | none => simp
  | some pr =>
    obtain ⟨t, v⟩ := pr
    dsimp only
    split_ifs <;> rfl

theorem updateFillBook_cash (p : PortfolioParams) (st : PortfolioState)
    (e : FillEvent) : (updateFillBook p st e).cash = st.cash := by
  unfold updateFillBook
  rcases hop : dictGet st.open_positions e.symbol with _ | op <;>
    simp only [hop] <;> split_ifs <;> rfl

theorem updateFill_cash (p : PortfolioParams) (st : PortfolioState)
    (e : FillEvent) :
    (updateFill p st e).cash =
      st.cash - (e.fill_price * (e.quantity_filled : ℚ) * fillDir e + e.commission) := by
  unfold updateFill
  rw [updateEquity_cash, updateFillBook_cash]
  cases hd : e.direction <;> simp [fillDir, hd]

/-- Claim C7 (confirmed): after any sequence of fills processed by
`update_fill` from a fresh portfolio, the cash equals the initial capital
minus `Σ price·qty·dir` minus `Σ commission`. -/
theorem C7_cash_equation (p : PortfolioParams) (fills : List FillEvent) :
    (fills.foldl (updateFill p) (mkPortfolio p)).cash =
      p.initial_capital
        - (fills.map (fun e => e.fill_price * (e.quantity_filled : ℚ) * fillDir e)).sum
        - (fills.map FillEvent.commission).sum := by
  suffices h : ∀ st : PortfolioState, (fills.foldl (updateFill p) st).cash =
      st.cash
        - (fills.map (fun e => e.fill_price * (e.quantity_filled : ℚ) * fillDir e)).sum
        - (fills.map FillEvent.commission).sum by
    simpa [mkPortfolio] using h (mkPortfolio p)
  induction fills with
  | nil => intro st; simp
  | cons f fs ih =>
    intro st
    simp only [List.foldl_cons, List.map_cons, List.sum_cons, ih, updateFill_cash]
    ring

theorem consumedTotal_zero (side : List (ℚ × Level))
    (hpos : ∀ pr ∈ side, 0 ≤ pr.2.qty) : consumedTotal 0 side = 0 := by
  induction side with
  | nil => rfl
  | cons hd tl ih =>
    have h0 : min (0:ℤ) hd.2.qty = 0 :=
      min_eq_left (hpos hd (List.mem_cons_self _ _))
    have := ih (fun pr hpr => hpos pr (List.mem_cons_of_mem _ hpr))
    simp only [consumedTotal, consumedLevels] at this ⊢
    simp [h0, this]

theorem consumedValue_zero (side : List (ℚ × Level))
    (hpos : ∀ pr ∈ side, 0 ≤ pr.2.qty) : consumedValue 0 side = 0 := by
  induction side with
  | nil => rfl
  | cons hd tl ih =>
    have h0 : min (0:ℤ) hd.2.qty = 0 :=
      min_eq_left (hpos hd (List.mem_cons_self _ _))
    have := ih (fun pr hpr => hpos pr (List.mem_cons_of_mem _ hpr))
    simp only [consumedValue, consumedLevels] at this ⊢
    simp [h0, this]

theorem remainingSide_zero (side : List (ℚ × Level))
    (hpos : ∀ pr ∈ side, 0 < pr.2.qty) : remainingSide 0 side = side := by
  induction side with
  | nil => rfl
  | cons hd tl ih =>
    obtain ⟨p, v⟩ := hd
    have hq : 0 < v.qty := hpos (p, v) (List.mem_cons_self _ _)
    have h0 : min (0:ℤ) v.qty = 0 := min_eq_left hq.le
    have hne : ¬ v.qty ≤ 0 := by omega
    have := ih (fun pr hpr => hpos pr (List.mem_cons_of_mem _ hpr))
    simp only [remainingSide] at this ⊢
    simp [h0, hne, this]

theorem walkSide_eq (q : ℤ) (side : List (ℚ × Level)) (hq : 0 ≤ q)
    (hpos : ∀ pr ∈ side, 0 < pr.2.qty) :
    walkSide q side =
      (consumedTotal q side, consumedValue q side, remainingSide q side) := by
  induction side generalizing q with
  | nil => simp [walkSide, consumedTotal, consumedValue, consumedLevels, remainingSide]
  | cons hd tl ih =>
    obtain ⟨price, lv⟩ := hd
    have hlv : 0 < lv.qty := hpos (price, lv) (List.mem_cons_self _ _)
    have htl : ∀ pr ∈ tl, 0 < pr.2.qty :=
      fun pr hpr => hpos pr (List.mem_cons_of_mem _ hpr)
    have hc0 : 0 ≤ min q lv.qty := le_min hq hlv.le
    by_cases hbreak : q - min q lv.qty = 0
    · have hzt := consumedTotal_zero tl (fun pr hpr => (htl pr hpr).le)
      have hzv := consumedValue_zero tl (fun pr hpr => (htl pr hpr).le)
      have hzr := remainingSide_zero tl htl
      simp only [consumedTotal, consumedValue] at hzt hzv
      simp only [walkSide, consumedTotal, consumedValue, consumedLevels,
        remainingSide]
      rw [if_pos hbreak, hbreak]
      simp [List.map_cons, List.sum_cons, hzt, hzv, hzr]
    · have hrec := ih (q - min q lv.qty) (by omega) htl
      simp only [consumedTotal, consumedValue] at hrec
      simp only [walkSide, consumedTotal, consumedValue, consumedLevels,
        remainingSide]
      rw [if_neg hbreak, hrec]
      simp [List.map_cons, List.sum_cons]

theorem consumedTotal_min (q : ℤ) (side : List (ℚ × Level)) (hq : 0 ≤ q)
    (hpos : ∀ pr ∈ side, 0 < pr.2.qty) :
    consumedTotal q side = min q ((side.map (fun pr => pr.2.qty)).sum) := by
  induction side generalizing q with
  | nil =>
    simp only [consumedTotal, consumedLevels, List.map_nil, List.sum_nil]
    omega
  | cons hd tl ih =>
    obtain ⟨price, lv⟩ := hd
    have hlv : 0 < lv.qty := hpos (price, lv) (List.mem_cons_self _ _)
    have htl : ∀ pr ∈ tl, 0 < pr.2.qty :=
      fun pr hpr => hpos pr (List.mem_cons_of_mem _ hpr)
    have hrest : 0 ≤ (tl.map (fun pr => pr.2.qty)).sum :=
      List.sum_nonneg (by
        intro x hx
        obtain ⟨pr, hpr, hxe⟩ := List.mem_map.1 hx
        exact hxe ▸ (htl pr hpr).le)
    have hrec := ih (q - min q lv.qty) (by omega) htl
    simp only [consumedTotal, consumedLevels, List.map_cons, List.sum_cons] at hrec ⊢
    rw [hrec]
    omega

theorem remainingSide_pos (q : ℤ) (side : List (ℚ × Level))
    (hpos : ∀ pr ∈ side, 0 < pr.2.qty) :
    ∀ pr ∈ remainingSide q side, 0 < pr.2.qty := by
  induction side generalizing q with
  | nil => intro pr hpr; simp [remainingSide] at hpr
  | cons hd tl ih =>
    obtain ⟨price, lv⟩ := hd
    have htl : ∀ pr ∈ tl, 0 < pr.2.qty :=
      fun pr hpr => hpos pr (List.mem_cons_of_mem _ hpr)
    intro pr hpr
    simp only [remainingSide, List.mem_append] at hpr
    rcases hpr with h | h
    · by_cases hdel : lv.qty - min q lv.qty ≤ 0
      · simp [hdel] at h
      · simp only [if_neg hdel, List.mem_singleton] at h
        subst h
        simpa using by omega
    · exact ih (q - min q lv.qty) htl pr h

theorem updateOrderStatus_queue (s : ExecState) (oid : OrderId)
    (status : OrderStatus) (ts : ℤ) (fq : Option ℤ) (o : OrderEvent)
    (h : dictGet s.submitted_orders oid = some o) :
    (updateOrderStatus s oid status ts fq).queue =
      s.queue ++ [Event.order (mkStatusEvent oid o status ts fq)] := by
  unfold updateOrderStatus
  rw [h]
  dsimp only [mkStatusEvent]
  split_ifs <;> rfl

theorem positive_side_sum (side : List (ℚ × Level)) (hne : side ≠ [])
    (hpos : ∀ pr ∈ side, 0 < pr.2.qty) :
    0 < (side.map (fun pr => pr.2.qty)).sum := by
  rcases hcs : side with _ | ⟨hd, tl⟩
  · exact absurd hcs hne
  · rw [hcs] at hpos
    have h1 : 0 < hd.2.qty := hpos hd (List.mem_cons_self _ _)
    have h2 : 0 ≤ (tl.map (fun pr => pr.2.qty)).sum :=
      List.sum_nonneg (by
        intro x hx
        obtain ⟨pr, hpr, hxe⟩ := List.mem_map.1 hx
        exact hxe ▸ (hpos pr (List.mem_cons_of_mem _ hpr)).le)
    simp only [List.map_cons, List.sum_cons]
    omega

/-- The full run of `_execute_market_order` against a nonempty
positive-quantity opposite side with a positive order quantity, as one
equation: walk the side, rewrite the book, enqueue the Fill, and finish
with the status update. -/
theorem executeMarketOrder_run (p : ExecParams) (s : ExecState)
    (o : OrderEvent)
    (hne : bookOpposite s.book o.direction ≠ [])
    (hpos : ∀ pr ∈ bookOpposite s.book o.direction, 0 < pr.2.qty)
    (hq : 0 < o.quantity) :
    executeMarketOrder p s o =
      updateOrderStatus
        { s with
            book :=
              { s.book with
                bids := if o.direction = Side.BUY then s.book.bids
                  else remainingSide o.quantity (bookOpposite s.book o.direction)
                asks := if o.direction = Side.BUY
                  then remainingSide o.quantity (bookOpposite s.book o.direction)
                  else s.book.asks
                best_bid := ((if o.direction = Side.BUY then s.book.bids
                  else remainingSide o.quantity (bookOpposite s.book o.direction)).head?).map Prod.fst
                best_ask := ((if o.direction = Side.BUY
                  then remainingSide o.quantity (bookOpposite s.book o.direction)
                  else s.book.asks).head?).map Prod.fst }
            queue := s.queue ++
              [Event.fill
                { timestamp := o.timestamp, order_id := o.order_id
                  strategy_id := o.strategy_id, symbol := o.symbol
                  direction := o.direction
                  quantity_filled := consumedTotal o.quantity (bookOpposite s.book o.direction)
                  fill_price := consumedValue o.quantity (bookOpposite s.book o.direction) /
                    ((consumedTotal o.quantity (bookOpposite s.book o.direction) : ℤ) : ℚ)
                  commission := p.commission_per_contract *
                    ((consumedTotal o.quantity (bookOpposite s.book o.direction) : ℤ) : ℚ)
                  linked_stop_price := o.linked_stop_price
                  linked_target_price := o.linked_target_price }] }
        o.order_id
        (if consumedTotal o.quantity (bookOpposite s.book o.direction) = o.quantity
          then .FILLED else .PARTIALLY_FILLED)
        o.timestamp
        (some (consumedTotal o.quantity (bookOpposite s.book o.direction))) := by
  have hwalk := walkSide_eq o.quantity (bookOpposite s.book o.direction) hq.le hpos
  have hfpos : 0 < consumedTotal o.quantity (bookOpposite s.book o.direction) := by
    rw [consumedTotal_min o.quantity (bookOpposite s.book o.direction) hq.le hpos]
    have := positive_side_sum _ hne hpos
    omega
  unfold executeMarketOrder
  rw [if_neg hne]
  dsimp only
  rw [hwalk]
  dsimp only
  rw [if_pos hfpos]

theorem updateOrderStatus_rejected (s : ExecState) (oid : OrderId) (ts : ℤ)
    (o : OrderEvent) (hstored : dictGet s.submitted_orders oid = some o) :
    updateOrderStatus s oid .REJECTED ts none =
      { s with
          submitted_orders := dictDel (dictSet s.submitted_orders oid o) oid
          queue := s.queue ++
            [Event.order (mkStatusEvent oid o .REJECTED ts none)] } := by
  unfold updateOrderStatus
  rw [hstored]
  dsimp only
  rw [if_neg (by decide : ¬ (OrderStatus.REJECTED = .PARTIALLY_FILLED)),
    if_neg (by decide : ¬ (OrderStatus.REJECTED = .FILLED)),
    if_pos (by decide : OrderStatus.REJECTED = .FILLED ∨
      OrderStatus.REJECTED = .REJECTED ∨ OrderStatus.REJECTED = .CANCELLED)]
  rfl

/-- Claim C4 as amended: add "with positive order quantity" to the filled
branch (a zero-quantity order against a nonempty side is REJECTED with no
fill — see the counterexample).  First half: against an empty opposite
side the order is rejected — the queue gains exactly one REJECTED status
event for the order and no Fill.  Second half: for a MARKET order with
`0 < quantity` against a nonempty opposite side of positive-quantity
levels, exactly one Fill is emitted whose quantity is
`min(quantity, side total)`, whose price is the quantity-weighted average
of the consumed levels and whose commission is
`commission_per_contract · filled`, followed by a FILLED status when the
whole quantity filled and PARTIALLY_FILLED otherwise; the walked side
becomes `remainingSide` — fully consumed levels deleted, every surviving
level still positive. -/
theorem C4_amended_market_order :
    (∀ (p : ExecParams) (s : ExecState) (o : OrderEvent) (osr : OrderEvent),
      dictGet s.submitted_orders o.order_id = some osr →
      bookOpposite s.book o.direction = [] →
      (executeMarketOrder p s o).queue = s.queue ++
        [Event.order (mkStatusEvent o.order_id osr .REJECTED
          o.timestamp none)] ∧
      (mkStatusEvent o.order_id osr .REJECTED o.timestamp none).status =
        .REJECTED ∧
      (∀ f : FillEvent, Event.fill f ∈ (executeMarketOrder p s o).queue →
        Event.fill f ∈ s.queue)) ∧
    (∀ (p : ExecParams) (s : ExecState) (o : OrderEvent),
      bookOpposite s.book o.direction ≠ [] →
      (∀ pr ∈ bookOpposite s.book o.direction, 0 < pr.2.qty) →
      0 < o.quantity →
      dictGet s.submitted_orders o.order_id = some o →
      consumedTotal o.quantity (bookOpposite s.book o.direction) =
        min o.quantity (((bookOpposite s.book o.direction).map
          (fun pr => pr.2.qty)).sum) ∧
      0 < consumedTotal o.quantity (bookOpposite s.book o.direction) ∧
      (executeMarketOrder p s o).queue = s.queue ++
        [Event.fill
          { timestamp := o.timestamp, order_id := o.order_id
            strategy_id := o.strategy_id, symbol := o.symbol
            direction := o.direction
            quantity_filled := consumedTotal o.quantity (bookOpposite s.book o.direction)
            fill_price := consumedValue o.quantity (bookOpposite s.book o.direction) /
              ((consumedTotal o.quantity (bookOpposite s.book o.direction) : ℤ) : ℚ)
            commission := p.commission_per_contract *
              ((consumedTotal o.quantity (bookOpposite s.book o.direction) : ℤ) : ℚ)
            linked_stop_price := o.linked_stop_price
            linked_target_price := o.linked_target_price },
         Event.order (mkStatusEvent o.order_id o
           (if consumedTotal o.quantity (bookOpposite s.book o.direction) = o.quantity
             then .FILLED else .PARTIALLY_FILLED)
           o.timestamp
           (some (consumedTotal o.quantity (bookOpposite s.book o.direction))))] ∧
      bookOpposite (executeMarketOrder p s o).book o.direction =
        remainingSide o.quantity (bookOpposite s.book o.direction) ∧
      (∀ pr ∈ remainingSide o.quantity (bookOpposite s.book o.direction),
        0 < pr.2.qty)) := by
  constructor
  · intro p s o osr hstored hside
    unfold executeMarketOrder
    dsimp only
    rw [if_pos hside]
    unfold rejectOrder
    rw [updateOrderStatus_rejected s o.order_id o.timestamp osr hstored]
    refine ⟨rfl, rfl, ?_⟩
    intro f hf
    rcases List.mem_append.1 hf with h | h
    · exact h
    · simp at h
  · intro p s o hne hpos hq hsub
    have hmin := consumedTotal_min o.quantity (bookOpposite s.book o.direction) hq.le hpos
    have hsumpos := positive_side_sum _ hne hpos
    have hfpos : 0 < consumedTotal o.quantity (bookOpposite s.book o.direction) := by
      rw [hmin]; omega
    have hexecq := executeMarketOrder_run p s o hne hpos hq
    refine ⟨hmin, hfpos, ?_, ?_, remainingSide_pos _ _ hpos⟩
    · rw [hexecq, updateOrderStatus_queue _ _ _ _ _ o (by exact hsub)]
      simp [List.append_assoc]
    · rw [hexecq]
      have hbook : ∀ s' : ExecState, ∀ oid st ts fq,
          (updateOrderStatus s' oid st ts fq).book = s'.book := by
        intro s' oid st ts fq
        unfold updateOrderStatus
        cases dictGet s'.submitted_orders oid <;> rfl
      rw [hbook]
      cases o.direction <;> simp [bookOpposite]

/-- Witness for `C4_amended_market_order`: the empty ask book of
`c4eState` rejects the BUY with no Fill, and a BUY for 2 against a single
5-lot ask level fills positively. -/
theorem C4_amended_market_order_witness :
    ((executeMarketOrder fixParams c4eState c4Order).queue =
        c4eState.queue ++ [Event.order (mkStatusEvent c4Order.order_id
          c4Order .REJECTED c4Order.timestamp none)] ∧
      (mkStatusEvent c4Order.order_id c4Order .REJECTED c4Order.timestamp
        none).status = .REJECTED ∧
      (∀ f : FillEvent,
        Event.fill f ∈ (executeMarketOrder fixParams c4eState c4Order).queue →
        Event.fill f ∈ c4eState.queue)) ∧
    0 < c4wOrder.quantity ∧
    0 < consumedTotal c4wOrder.quantity
      (bookOpposite c4wState.book c4wOrder.direction) :=
  ⟨C4_amended_market_order.1 fixParams c4eState c4Order c4Order (by decide)
      (by decide),
    by decide,
    (C4_amended_market_order.2 fixParams c4wState c4wOrder
      (by decide) (by decide) (by decide) (by decide)).2.1⟩

/-! ### Association-list (Python dict) lemmas -/

theorem dictMem_iff {κ α : Type} [DecidableEq κ] (l : List (κ × α)) (k : κ) :
    dictMem l k ↔ ∃ pr ∈ l, pr.1 = k := by
  have hmap : (Option.map Prod.snd (l.find? fun p => p.1 = k)).isSome =
      (l.find? fun p => p.1 = k).isSome := by
    cases l.find? fun p => p.1 = k <;> rfl
  unfold dictMem dictGet
  rw [hmap, List.find?_isSome]
  simp

theorem not_dictMem_keys {κ α : Type} [DecidableEq κ] (l : List (κ × α))
    (k : κ) (h : ¬ dictMem l k) : ∀ pr ∈ l, pr.1 ≠ k := by
  intro pr hpr he
  exact h ((dictMem_iff l k).2 ⟨pr, hpr, he⟩)

theorem dictGet_dictSet_ne {κ α : Type} [DecidableEq κ] (l : List (κ × α))
    (k k' : κ) (v : α) (h : k' ≠ k) :
    dictGet (dictSet l k v) k' = dictGet l k' := by
  have hkk : ¬ (k = k') := fun hh => h hh.symm
  unfold dictGet dictSet
  by_cases hmem : l.any (fun p => p.1 = k)
  · rw [if_pos hmem, List.find?_map]
    have hfun : ((fun p : κ × α => decide (p.1 = k')) ∘
        (fun p : κ × α => if p.1 = k then (k, v) else p)) =
        fun p : κ × α => decide (p.1 = k') := by
      funext p
      by_cases hp : p.1 = k
      · have hpk : ¬ p.1 = k' := fun hh => hkk (hp.symm.trans hh)
        simp [hp, hkk, hpk]
      · simp [hp]
    rw [hfun]
    cases hf : l.find? (fun p => decide (p.1 = k')) with
    | none => simp
    | some e =>
      have he' : e.1 = k' := by simpa using List.find?_some hf
      have hee : (if e.1 = k then (k, v) else e) = e :=
        if_neg (fun hh => h (he' ▸ hh))
      simp [hee]
  · rw [if_neg hmem, List.find?_append]
    have hnil : List.find? (fun p : κ × α => decide (p.1 = k')) [(k, v)] = none := by
      simp [hkk]
    rw [hnil]
    cases l.find? (fun p : κ × α => decide (p.1 = k')) <;> simp

theorem dictGet_dictDel_ne {κ α : Type} [DecidableEq κ] (l : List (κ × α))
    (k k' : κ) (h : k' ≠ k) :
    dictGet (dictDel l k) k' = dictGet l k' := by
  unfold dictGet dictDel
  rw [List.find?_filter]
  have hfun : (fun a : κ × α => (decide ¬ a.1 = k ∧ decide (a.1 = k') : Bool)) =
      fun a : κ × α => decide (a.1 = k') := by
    funext a
    by_cases ha : a.1 = k'
    · simp [ha, h]
    · simp [ha]
  rw [hfun]

theorem pyInt_intCast (z : ℤ) : pyInt ((z : ℚ)) = z := by
  unfold pyInt
  split_ifs with h
  · exact_mod_cast Int.floor_intCast (α := ℚ) z
  · exact_mod_cast Int.ceil_intCast (α := ℚ) z

/-! ### `check_limit_fills` characterization -/

/-- The heuristic fill quantity is exactly the spec's integer clamp when
the stored queue estimate is the integer `n`. -/
theorem clfFillQty_eq_clamp (tr : TradeEvent) (e : LimitEntry) (n : ℤ)
    (hqa : e.qty_ahead = (n : ℚ)) :
    clfFillQty tr e =
      specClampFill (specConsumes tr e) n (e.order.quantity - e.qty_filled) := by
  unfold clfFillQty specClampFill specConsumes clfTradeConsumes
  by_cases h : tr.price = e.order.limit_price.getD 0
  · rw [if_pos h, if_pos h]
    dsimp only
    rw [hqa]
    have hcast : min (max 0 ((tr.quantity : ℚ) - (n : ℚ)))
        ((e.order.quantity - e.qty_filled : ℤ) : ℚ) =
        ((min (e.order.quantity - e.qty_filled) (max 0 (tr.quantity - n)) : ℤ) : ℚ) := by
      push_cast
      rw [min_comm]
    rw [hcast, pyInt_intCast]
  · rw [if_neg h, if_neg h]

theorem updateOrderStatus_spec (s : ExecState) (oid : OrderId)
    (status : OrderStatus) (ts : ℤ) (fq : Option ℤ) :
    ∃ tail : List Event,
      (updateOrderStatus s oid status ts fq).queue = s.queue ++ tail ∧
      (∀ ev ∈ tail, ∃ oe : OrderEvent, ev = Event.order oe ∧
        oe.order_id = oid ∧ oe.status = status) ∧
      (updateOrderStatus s oid status ts fq).pending_limit_orders =
        s.pending_limit_orders ∧
      (updateOrderStatus s oid status ts fq).pending_stop_orders =
        s.pending_stop_orders ∧
      (updateOrderStatus s oid status ts fq).linked_exit_orders =
        s.linked_exit_orders ∧
      (updateOrderStatus s oid status ts fq).order_counter = s.order_counter ∧
      (updateOrderStatus s oid status ts fq).book = s.book ∧
      (∀ k, k ≠ oid →
        dictGet (updateOrderStatus s oid status ts fq).submitted_orders k =
          dictGet s.submitted_orders k) := by
  unfold updateOrderStatus
  cases h : dictGet s.submitted_orders oid with
  | none => exact ⟨[], by simp⟩
  | some o =>
    refine ⟨_, rfl, ?_, rfl, rfl, rfl, rfl, rfl, ?_⟩
    · intro ev hev
      rw [List.mem_singleton] at hev
      exact ⟨_, hev, rfl, rfl⟩
    · intro k hk
      dsimp only
      split_ifs <;>
        simp [dictGet_dictDel_ne _ _ _ hk, dictGet_dictSet_ne _ _ _ _ hk]

theorem cancelLinkedStop_spec (s : ExecState) (oid : OrderId) (ts : ℤ) :
    ∃ tail : List Event,
      (cancelLinkedStop s oid ts).queue = s.queue ++ tail ∧
      (∀ ev ∈ tail, ∃ oe : OrderEvent, ev = Event.order oe ∧
        oe.status = .CANCELLED ∧ dictMem s.pending_stop_orders oe.order_id) ∧
      (cancelLinkedStop s oid ts).pending_limit_orders =
        s.pending_limit_orders ∧
      (∀ pr ∈ (cancelLinkedStop s oid ts).pending_stop_orders,
        pr ∈ s.pending_stop_orders) ∧
      (cancelLinkedStop s oid ts).order_counter = s.order_counter ∧
      (cancelLinkedStop s oid ts).book = s.book ∧
      (∀ k, (∀ pr ∈ s.pending_stop_orders, pr.1 ≠ k) →
        dictGet (cancelLinkedStop s oid ts).submitted_orders k =
          dictGet s.submitted_orders k) := by
  unfold cancelLinkedStop
  dsimp only
  split
  · exact ⟨[], by simp⟩
  · split
    · exact ⟨[], by simp⟩
    · split
      · exact ⟨[], by simp⟩
      · rename_i eid exits stop_id h4
        split_ifs with h5
        · obtain ⟨tail, hq, hev, hpl, hps, hle, hoc, hbk, hsub⟩ :=
            updateOrderStatus_spec
              { s with pending_stop_orders := dictDel s.pending_stop_orders stop_id }
              stop_id .CANCELLED ts none
          refine ⟨tail, by simpa using hq, ?_, by simpa using hpl, ?_, ?_, ?_, ?_⟩
          · intro ev hev'
            obtain ⟨oe, hoe, hid, hst⟩ := hev ev hev'
            exact ⟨oe, hoe, hst, hid ▸ h5⟩
          · intro pr hpr
            have hmem : pr ∈ dictDel s.pending_stop_orders stop_id := by
              simp only [hps] at hpr
              simpa using hpr
            exact List.mem_of_mem_filter hmem
          · simpa using hoc
          · simpa using hbk
          · intro k hk
            have hkne : k ≠ stop_id := by
              intro he
              obtain ⟨pr, hpr, hpk⟩ := (dictMem_iff _ _).1 h5
              exact hk pr hpr (by rw [hpk, ← he])
            have := hsub k hkne
            simpa using this
        · exact ⟨[], by simp⟩

theorem clfEffects_spec (p : ExecParams) (tr : TradeEvent)
    (pr : OrderId × LimitEntry) (s : ExecState) :
    ∃ tail : List Event,
      (clfEffects p tr pr s).queue = s.queue ++ tail ∧
      (∀ ev ∈ tail,
        (ev = Event.fill (clfFillEvent p tr pr) ∧ clfMatches tr pr.2 ∧
          0 < clfFillQty tr pr.2) ∨
        (∃ oe : OrderEvent, ev = Event.order oe ∧ oe.status ≠ .PENDING_SUBMIT ∧
          (oe.order_id = pr.1 ∨ dictMem s.pending_stop_orders oe.order_id))) ∧
      (clfEffects p tr pr s).pending_limit_orders = s.pending_limit_orders ∧
      (∀ pr' ∈ (clfEffects p tr pr s).pending_stop_orders,
        pr' ∈ s.pending_stop_orders) ∧
      (clfEffects p tr pr s).order_counter = s.order_counter ∧
      (clfEffects p tr pr s).book = s.book ∧
      (∀ k, k ≠ pr.1 → (∀ pr' ∈ s.pending_stop_orders, pr'.1 ≠ k) →
        dictGet (clfEffects p tr pr s).submitted_orders k =
          dictGet s.submitted_orders k) := by
  unfold clfEffects
  dsimp only
  split_ifs with hm hf hfull
  · -- matching, positive fill, fully filled: FILLED status then OCO cancel
    obtain ⟨tailU, huq, huev, hupl, hups, hule, huoc, hubk, husub⟩ :=
      updateOrderStatus_spec
        { s with queue := s.queue ++ [Event.fill (clfFillEvent p tr pr)] }
        pr.1 .FILLED tr.timestamp (some (pr.2.qty_filled + clfFillQty tr pr.2))
    set s₂ := updateOrderStatus
      { s with queue := s.queue ++ [Event.fill (clfFillEvent p tr pr)] }
      pr.1 .FILLED tr.timestamp (some (pr.2.qty_filled + clfFillQty tr pr.2)) with hs₂
    obtain ⟨tailC, hcq, hcev, hcpl, hcps, hcoc, hcbk, hcsub⟩ :=
      cancelLinkedStop_spec s₂ pr.1 tr.timestamp
    refine ⟨[Event.fill (clfFillEvent p tr pr)] ++ tailU ++ tailC, ?_, ?_, ?_, ?_, ?_, ?_, ?_⟩
    · rw [hcq, huq]
      simp
    · intro ev hev
      simp only [List.mem_append, List.mem_singleton] at hev
      rcases hev with (he | he) | he
      · exact Or.inl ⟨he, hm, hf⟩
      · obtain ⟨oe, hoe, hid, hst⟩ := huev ev he
        exact Or.inr ⟨oe, hoe, by simp [hst], Or.inl hid⟩
      · obtain ⟨oe, hoe, hst, hmemst⟩ := hcev ev he
        refine Or.inr ⟨oe, hoe, by simp [hst], Or.inr ?_⟩
        have hps2 : s₂.pending_stop_orders = s.pending_stop_orders := by
          simpa using hups
        rwa [hps2] at hmemst
    · rw [hcpl]
      simpa using hupl
    · intro pr' hpr'
      have h1 := hcps pr' hpr'
      have hps2 : s₂.pending_stop_orders = s.pending_stop_orders := by
        simpa using hups
      rwa [hps2] at h1
    · rw [hcoc]
      simpa using huoc
    · rw [hcbk]
      simpa using hubk
    · intro k hk hks
      have hps2 : s₂.pending_stop_orders = s.pending_stop_orders := by
        simpa using hups
      rw [hcsub k (by rw [hps2]; exact hks)]
      have := husub k hk
      simpa using this
  · -- matching, positive fill, partial: PARTIALLY_FILLED status
    obtain ⟨tailU, huq, huev, hupl, hups, hule, huoc, hubk, husub⟩ :=
      updateOrderStatus_spec
        { s with queue := s.queue ++ [Event.fill (clfFillEvent p tr pr)] }
        pr.1 .PARTIALLY_FILLED tr.timestamp (some (pr.2.qty_filled + clfFillQty tr pr.2))
    refine ⟨[Event.fill (clfFillEvent p tr pr)] ++ tailU, ?_, ?_, ?_, ?_, ?_, ?_, ?_⟩
    · rw [huq]; simp
    · intro ev hev
      simp only [List.mem_append, List.mem_singleton] at hev
      rcases hev with he | he
      · exact Or.inl ⟨he, hm, hf⟩
      · obtain ⟨oe, hoe, hid, hst⟩ := huev ev he
        exact Or.inr ⟨oe, hoe, by simp [hst], Or.inl hid⟩
    · exact hupl
    · intro pr' hpr'
      rw [hups] at hpr'
      exact hpr'
    · exact huoc
    · exact hubk
    · intro k hk _
      exact husub k hk
  · exact ⟨[], by simp⟩
  · exact ⟨[], by simp⟩

theorem clfFold_spec (p : ExecParams) (tr : TradeEvent) :
    ∀ (es : List (OrderId × LimitEntry)) (s0 : ExecState),
      ∃ tail : List Event,
        (es.foldl (fun acc pr => clfEffects p tr pr acc) s0).queue =
          s0.queue ++ tail ∧
        (∀ ev ∈ tail,
          (∃ pr0, pr0 ∈ es ∧ ev = Event.fill (clfFillEvent p tr pr0) ∧
            clfMatches tr pr0.2 ∧ 0 < clfFillQty tr pr0.2) ∨
          (∃ oe : OrderEvent, ev = Event.order oe ∧ oe.status ≠ .PENDING_SUBMIT ∧
            ((∃ pr0, pr0 ∈ es ∧ oe.order_id = pr0.1) ∨
              dictMem s0.pending_stop_orders oe.order_id))) ∧
        (es.foldl (fun acc pr => clfEffects p tr pr acc) s0).pending_limit_orders =
          s0.pending_limit_orders ∧
        (∀ pr' ∈ (es.foldl (fun acc pr => clfEffects p tr pr acc) s0).pending_stop_orders,
          pr' ∈ s0.pending_stop_orders) ∧
        (es.foldl (fun acc pr => clfEffects p tr pr acc) s0).order_counter =
          s0.order_counter ∧
        (es.foldl (fun acc pr => clfEffects p tr pr acc) s0).book = s0.book ∧
        (∀ k, (∀ pr0 ∈ es, pr0.1 ≠ k) →
          (∀ pr' ∈ s0.pending_stop_orders, pr'.1 ≠ k) →
          dictGet (es.foldl (fun acc pr => clfEffects p tr pr acc) s0).submitted_orders k =
            dictGet s0.submitted_orders k) := by
  intro es
  induction es with
  | nil => exact fun s0 => ⟨[], by simp, by simp, rfl, fun _ h => h, rfl, rfl, fun _ _ _ => rfl⟩
  | cons pr rest ih =>
    intro s0
    obtain ⟨tail1, h1q, h1ev, h1pl, h1ps, h1oc, h1bk, h1sub⟩ :=
      clfEffects_spec p tr pr s0
    obtain ⟨tail2, h2q, h2ev, h2pl, h2ps, h2oc, h2bk, h2sub⟩ :=
      ih (clfEffects p tr pr s0)
    refine ⟨tail1 ++ tail2, ?_, ?_, ?_, ?_, ?_, ?_, ?_⟩
    · rw [List.foldl_cons, h2q, h1q, List.append_assoc]
    · intro ev hev
      rcases List.mem_append.1 hev with he | he
      · rcases h1ev ev he with ⟨hfe, hmm, hff⟩ | ⟨oe, hoe, hstat, hcase⟩
        · exact Or.inl ⟨pr, List.mem_cons_self _ _, hfe, hmm, hff⟩
        · rcases hcase with hid | hmem
          · exact Or.inr ⟨oe, hoe, hstat, Or.inl ⟨pr, List.mem_cons_self _ _, hid⟩⟩
          · exact Or.inr ⟨oe, hoe, hstat, Or.inr hmem⟩
      · rcases h2ev ev he with ⟨pr0, hpr0, hfe, hmm, hff⟩ | ⟨oe, hoe, hstat, hcase⟩
        · exact Or.inl ⟨pr0, List.mem_cons_of_mem _ hpr0, hfe, hmm, hff⟩
        · rcases hcase with ⟨pr0, hpr0, hid⟩ | hmem
          · exact Or.inr ⟨oe, hoe, hstat, Or.inl ⟨pr0, List.mem_cons_of_mem _ hpr0, hid⟩⟩
          · obtain ⟨pr', hpr', hk⟩ := (dictMem_iff _ _).1 hmem
            exact Or.inr ⟨oe, hoe, hstat, Or.inr ((dictMem_iff _ _).2
              ⟨pr', h1ps pr' hpr', hk⟩)⟩
    · rw [List.foldl_cons] at *
      rw [h2pl, h1pl]
    · intro pr' hpr'
      rw [List.foldl_cons] at hpr'
      exact h1ps pr' (h2ps pr' hpr')
    · rw [List.foldl_cons, h2oc, h1oc]
    · rw [List.foldl_cons, h2bk, h1bk]
    · intro k hkes hks
      rw [List.foldl_cons, h2sub k
        (fun pr0 hpr0 => hkes pr0 (List.mem_cons_of_mem _ hpr0))
        (fun pr' hpr' => hks pr' (h1ps pr' hpr')),
        h1sub k (fun he => hkes pr (List.mem_cons_self _ _) he.symm) hks]

/-- The rebuilt `pending_limit_orders` after `check_limit_fills` is the
pure `filterMap` of the snapshot. -/
theorem checkLimitFills_pending (p : ExecParams) (tr : TradeEvent)
    (s : ExecState) :
    (checkLimitFills p tr s).pending_limit_orders =
      s.pending_limit_orders.filterMap (clfKeep tr) := rfl

theorem pyInt_nonneg (q : ℚ) (h : 0 ≤ q) : 0 ≤ pyInt q := by
  unfold pyInt
  rw [if_pos h]
  exact Int.floor_nonneg.2 h

theorem pyInt_le_int (q : ℚ) (z : ℤ) (h0 : 0 ≤ q) (h : q ≤ (z : ℚ)) :
    pyInt q ≤ z := by
  unfold pyInt
  rw [if_pos h0]
  calc ⌊q⌋ ≤ ⌊(z : ℚ)⌋ := Int.floor_le_floor h
  _ = z := Int.floor_intCast z

theorem clfFillQty_nonneg (tr : TradeEvent) (e : LimitEntry)
    (hrem : 0 ≤ e.order.quantity - e.qty_filled) : 0 ≤ clfFillQty tr e := by
  unfold clfFillQty clfTradeConsumes
  split_ifs with h
  · exact pyInt_nonneg _ (le_min (le_max_left _ _) (by exact_mod_cast hrem))
  · exact hrem

theorem clfFillQty_le_rem (tr : TradeEvent) (e : LimitEntry)
    (hrem : 0 ≤ e.order.quantity - e.qty_filled) :
    clfFillQty tr e ≤ e.order.quantity - e.qty_filled := by
  unfold clfFillQty clfTradeConsumes
  split_ifs with h
  · exact pyInt_le_int _ _ (le_min (le_max_left _ _) (by exact_mod_cast hrem))
      (min_le_right _ _)
  · exact le_refl _

theorem clfNewAhead_eq (tr : TradeEvent) (e : LimitEntry) (n : ℤ)
    (hqa : e.qty_ahead = (n : ℚ)) :
    clfNewAhead tr e = ((specNewAhead (specConsumes tr e) n : ℤ) : ℚ) := by
  unfold clfNewAhead clfTradeConsumes specNewAhead specConsumes
  split_ifs with h
  · dsimp only
    rw [hqa]
    push_cast
    ring_nf
  · simp

theorem clfKeep_fst (tr : TradeEvent) (pr x : OrderId × LimitEntry)
    (h : clfKeep tr pr = some x) : x.1 = pr.1 := by
  unfold clfKeep at h
  dsimp only at h
  split_ifs at h <;>
    first
      | exact Option.noConfusion h
      | rw [← Option.some.inj h]

theorem clfKeep_eq_none_iff (tr : TradeEvent) (pr : OrderId × LimitEntry) :
    clfKeep tr pr = none ↔
      clfMatches tr pr.2 ∧ 0 < clfFillQty tr pr.2 ∧
        pr.2.order.quantity ≤ pr.2.qty_filled + clfFillQty tr pr.2 := by
  unfold clfKeep
  dsimp only
  by_cases hm : clfMatches tr pr.2
  · rw [if_pos hm]
    by_cases hf : clfFillQty tr pr.2 > 0
    · rw [if_pos hf]
      by_cases hfull : pr.2.qty_filled + clfFillQty tr pr.2 ≥ pr.2.order.quantity
      · rw [if_pos hfull]
        exact ⟨fun _ => ⟨hm, hf, by omega⟩, fun _ => rfl⟩
      · rw [if_neg hfull]
        exact ⟨fun hc => Option.noConfusion hc, fun hc => absurd hc.2.2 (by omega)⟩
    · rw [if_neg hf]
      exact ⟨fun hc => Option.noConfusion hc, fun hc => absurd hc.2.1 hf⟩
  · rw [if_neg hm]
    exact ⟨fun hc => Option.noConfusion hc, fun hc => absurd hc.1 hm⟩

theorem keys_nodup_inj {κ α : Type} (l : List (κ × α))
    (hnd : (l.map Prod.fst).Nodup) :
    ∀ a ∈ l, ∀ b ∈ l, a.1 = b.1 → a = b := by
  induction l with
  | nil => intro a ha; exact absurd ha (List.not_mem_nil a)
  | cons hd tl ih =>
    simp only [List.map_cons, List.nodup_cons] at hnd
    intro a ha b hb hab
    rcases List.mem_cons.1 ha with ha1 | ha2 <;>
      rcases List.mem_cons.1 hb with hb1 | hb2
    · rw [ha1, hb1]
    · exact absurd (List.mem_map.2 ⟨b, hb2, (ha1 ▸ hab).symm⟩) hnd.1
    · exact absurd (List.mem_map.2 ⟨a, ha2, (hb1 ▸ hab)⟩) hnd.1
    · exact ih hnd.2 a ha2 b hb2 hab

/-- Claim C5 (confirmed): for a resting limit entry whose stored queue
estimate is the integer `n` and whose filled quantity has not exceeded the
order quantity, a matching trade produces a fill quantity equal to the
spec clamp `clamp(trade_consumes − qty_ahead, 0, qty_rem)` (with
`trade_consumes = trade qty` at the limit price and `+∞` through it); the
entry is afterwards retained with `qty_ahead = max(0, qty_ahead −
trade_consumes)` and the accumulated fill — or removed when filled in
full — and every Fill newly enqueued for this order carries exactly the
limit price. -/
theorem C5_limit_queue_heuristic (p : ExecParams) (tr : TradeEvent)
    (s : ExecState) (id : OrderId) (e : LimitEntry) (n : ℤ)
    (hmem : (id, e) ∈ s.pending_limit_orders)
    (hnd : (s.pending_limit_orders.map Prod.fst).Nodup)
    (hmatch : clfMatches tr e)
    (hqa : e.qty_ahead = (n : ℚ))
    (hrem : e.qty_filled ≤ e.order.quantity) :
    clfFillQty tr e =
      specClampFill (specConsumes tr e) n (e.order.quantity - e.qty_filled) ∧
    (if e.order.quantity ≤ e.qty_filled + clfFillQty tr e ∧ 0 < clfFillQty tr e
      then ¬ dictMem (checkLimitFills p tr s).pending_limit_orders id
      else (id, (⟨e.order, ((specNewAhead (specConsumes tr e) n : ℤ) : ℚ),
        e.qty_filled + clfFillQty tr e⟩ : LimitEntry)) ∈
          (checkLimitFills p tr s).pending_limit_orders) ∧
    (∀ f : FillEvent, Event.fill f ∈ (checkLimitFills p tr s).queue →
      Event.fill f ∉ s.queue → f.order_id = id →
      f.fill_price = e.order.limit_price.getD 0 ∧
      f.quantity_filled = clfFillQty tr e) := by
  have hfq0 : 0 ≤ clfFillQty tr e := clfFillQty_nonneg tr e (by omega)
  refine ⟨clfFillQty_eq_clamp tr e n hqa, ?_, ?_⟩
  · rw [checkLimitFills_pending]
    split_ifs with hcond
    · -- removed
      intro hdm
      obtain ⟨pr', hpr', hk⟩ := (dictMem_iff _ _).1 hdm
      obtain ⟨pr0, hpr0, hkeep⟩ := List.mem_filterMap.1 hpr'
      have hp0 : pr0.1 = id := (clfKeep_fst tr pr0 pr' hkeep) ▸ hk
      have : pr0 = (id, e) := keys_nodup_inj _ hnd pr0 hpr0 (id, e) hmem hp0
      rw [this] at hkeep
      have hnone : clfKeep tr (id, e) = none :=
        (clfKeep_eq_none_iff tr (id, e)).2 ⟨hmatch, hcond.2, hcond.1⟩
      rw [hnone] at hkeep
      exact Option.noConfusion hkeep
    · -- retained with the updated entry
      apply List.mem_filterMap.2
      refine ⟨(id, e), hmem, ?_⟩
      unfold clfKeep
      dsimp only
      rw [if_pos hmatch]
      rw [← clfNewAhead_eq tr e n hqa]
      by_cases hf : 0 < clfFillQty tr e
      · rw [if_pos hf, if_neg (by push_neg at hcond ⊢; omega)]
      · rw [if_neg hf]
        have hz : clfFillQty tr e = 0 := by omega
        rw [hz]
        simp
  · intro f hfin hfnot hfid
    obtain ⟨tail, hq, hev, _, _, _, _, _⟩ :=
      clfFold_spec p tr s.pending_limit_orders s
    have hq' : (checkLimitFills p tr s).queue = s.queue ++ tail := hq
    rw [hq', List.mem_append] at hfin
    rcases hfin with hold | hnew
    · exact absurd hold hfnot
    · rcases hev _ hnew with ⟨pr0, hpr0, hfe, _, _⟩ | ⟨oe, hoe, _, _⟩
      · have hf0 : f = clfFillEvent p tr pr0 := by
          injection hfe
        have hp0 : pr0.1 = id := by
          rw [hf0] at hfid
          exact hfid
        have : pr0 = (id, e) := keys_nodup_inj _ hnd pr0 hpr0 (id, e) hmem hp0
        rw [hf0, this]
        exact ⟨rfl, rfl⟩
      · exact absurd hoe (by simp)

/-- Witness for `C5_limit_queue_heuristic`: the §8.1 resting target hit by
the exit trade. -/
theorem C5_limit_queue_heuristic_witness :
    (⟨c2TargetOrder, 0, 0⟩ : LimitEntry).qty_filled ≤
      (⟨c2TargetOrder, 0, 0⟩ : LimitEntry).order.quantity ∧
    clfFillQty c2Trade ⟨c2TargetOrder, 0, 0⟩ =
      specClampFill (specConsumes c2Trade ⟨c2TargetOrder, 0, 0⟩) 0
        ((⟨c2TargetOrder, 0, 0⟩ : LimitEntry).order.quantity -
          (⟨c2TargetOrder, 0, 0⟩ : LimitEntry).qty_filled) :=
  ⟨by decide,
    (C5_limit_queue_heuristic fixParams c2Trade c2State fixTargetId
      ⟨c2TargetOrder, 0, 0⟩ 0 (List.mem_cons_self _ _) (by simp [c2State])
      (by norm_num [clfMatches, c2Trade, c2TargetOrder]) (by norm_num)
      (by decide)).1⟩

theorem clfKeep_some_bounds (tr : TradeEvent) (pr0 x : OrderId × LimitEntry)
    (h : clfKeep tr pr0 = some x)
    (hwf : 0 ≤ pr0.2.qty_filled ∧ pr0.2.qty_filled < pr0.2.order.quantity) :
    0 ≤ x.2.qty_filled ∧ x.2.qty_filled ≤ x.2.order.quantity := by
  have hle := clfFillQty_le_rem tr pr0.2 (by omega)
  unfold clfKeep at h
  dsimp only at h
  split_ifs at h with hm hf hfull
  · rw [← Option.some.inj h]
    dsimp only
    omega
  · rw [← Option.some.inj h]
    dsimp only
    omega
  · rw [← Option.some.inj h]
    omega

/-- Claim C9 (confirmed): starting from a well-formed pending-limit table
(each entry has `0 ≤ qty_filled < quantity`, i.e. no already-complete
order is still resting), after `check_limit_fills` every remaining entry
satisfies `0 ≤ qty_filled ≤ quantity`, and an entry is removed exactly
when its accumulated fill reaches the order quantity. -/
theorem C9_pending_limit_invariant (p : ExecParams) (tr : TradeEvent)
    (s : ExecState)
    (hwf : ∀ pr ∈ s.pending_limit_orders,
      0 ≤ pr.2.qty_filled ∧ pr.2.qty_filled < pr.2.order.quantity)
    (hnd : (s.pending_limit_orders.map Prod.fst).Nodup) :
    (∀ pr ∈ (checkLimitFills p tr s).pending_limit_orders,
      0 ≤ pr.2.qty_filled ∧ pr.2.qty_filled ≤ pr.2.order.quantity) ∧
    (∀ pr ∈ s.pending_limit_orders,
      (¬ dictMem (checkLimitFills p tr s).pending_limit_orders pr.1 ↔
        pr.2.qty_filled +
          (if clfMatches tr pr.2 then clfFillQty tr pr.2 else 0) =
            pr.2.order.quantity)) := by
  constructor
  · intro pr' hpr'
    rw [checkLimitFills_pending] at hpr'
    obtain ⟨pr0, hpr0, hkeep⟩ := List.mem_filterMap.1 hpr'
    exact clfKeep_some_bounds tr pr0 pr' hkeep (hwf pr0 hpr0)
  · intro pr hpr
    constructor
    · intro hnm
      have hk : clfKeep tr pr = none := by
        cases hco : clfKeep tr pr with
        | none => rfl
        | some x =>
          exfalso
          apply hnm
          apply (dictMem_iff _ _).2
          refine ⟨x, ?_, clfKeep_fst tr pr x hco⟩
          rw [checkLimitFills_pending]
          exact List.mem_filterMap.2 ⟨pr, hpr, hco⟩
      obtain ⟨hm, hf, hfull⟩ := (clfKeep_eq_none_iff tr pr).1 hk
      rw [if_pos hm]
      have h1 := clfFillQty_le_rem tr pr.2 (by have := hwf pr hpr; omega)
      omega
    · intro heq
      by_cases hm : clfMatches tr pr.2
      · rw [if_pos hm] at heq
        have hwfp := hwf pr hpr
        have hfpos : 0 < clfFillQty tr pr.2 := by omega
        have hk : clfKeep tr pr = none :=
          (clfKeep_eq_none_iff tr pr).2 ⟨hm, hfpos, by omega⟩
        intro hdm
        obtain ⟨pr', hpr', hkk⟩ := (dictMem_iff _ _).1 hdm
        rw [checkLimitFills_pending] at hpr'
        obtain ⟨pr0, hpr0, hkeep⟩ := List.mem_filterMap.1 hpr'
        have hp0 : pr0.1 = pr.1 := (clfKeep_fst tr pr0 pr' hkeep) ▸ hkk
        have he : pr0 = pr := keys_nodup_inj _ hnd pr0 hpr0 pr hpr hp0
        rw [he, hk] at hkeep
        exact Option.noConfusion hkeep
      · rw [if_neg hm] at heq
        have hwfp := hwf pr hpr
        omega

/-- Witness for `C9_pending_limit_invariant`: the §8.1 pending table. -/
theorem C9_pending_limit_invariant_witness :
    (∀ pr ∈ c2State.pending_limit_orders,
      0 ≤ pr.2.qty_filled ∧ pr.2.qty_filled < pr.2.order.quantity) ∧
    (∀ pr ∈ (checkLimitFills fixParams c2Trade c2State).pending_limit_orders,
      0 ≤ pr.2.qty_filled ∧ pr.2.qty_filled ≤ pr.2.order.quantity) := by
  have hwf : ∀ pr ∈ c2State.pending_limit_orders,
      0 ≤ pr.2.qty_filled ∧ pr.2.qty_filled < pr.2.order.quantity := by
    intro pr hpr
    simp only [c2State] at hpr
    rw [List.mem_singleton] at hpr
    rw [hpr]
    exact ⟨le_refl 0, by decide⟩
  exact ⟨hwf, (C9_pending_limit_invariant fixParams c2Trade c2State hwf
    (by simp [c2State])).1⟩

/-! ### C3 — timestamp monotonicity of the dispatched stream -/

theorem mergeEvents_chain (lt : Event → Event → Bool)
    (h₁ : ∀ a b, lt a b = true → a.ts ≤ b.ts)
    (h₂ : ∀ a b, a.ts < b.ts → lt a b = true) :
    ∀ (l₁ l₂ : List Event),
      List.Chain' (fun a b => a.ts ≤ b.ts) l₁ →
      List.Chain' (fun a b => a.ts ≤ b.ts) l₂ →
      List.Chain' (fun a b => a.ts ≤ b.ts) (mergeEvents lt l₁ l₂) ∧
      ((mergeEvents lt l₁ l₂).head? = l₁.head? ∨
        (mergeEvents lt l₁ l₂).head? = l₂.head?) := by
  have key : ∀ (n : ℕ) (l₁ l₂ : List Event), l₁.length + l₂.length ≤ n →
      List.Chain' (fun a b => a.ts ≤ b.ts) l₁ →
      List.Chain' (fun a b => a.ts ≤ b.ts) l₂ →
      List.Chain' (fun a b => a.ts ≤ b.ts) (mergeEvents lt l₁ l₂) ∧
      ((mergeEvents lt l₁ l₂).head? = l₁.head? ∨
        (mergeEvents lt l₁ l₂).head? = l₂.head?) := by
    intro n
    induction n with
    | zero =>
      intro l₁ l₂ hlen _ _
      have h1 : l₁ = [] := List.length_eq_zero.1 (by omega)
      have h2 : l₂ = [] := List.length_eq_zero.1 (by omega)
      subst h1; subst h2
      rw [mergeEvents]
      exact ⟨List.chain'_nil, Or.inl rfl⟩
    | succ n ih =>
      intro l₁ l₂ hlen hc₁ hc₂
      rcases l₁ with _ | ⟨a, as⟩
      · rw [mergeEvents]
        exact ⟨hc₂, Or.inr rfl⟩
      rcases l₂ with _ | ⟨b, bs⟩
      · rw [mergeEvents]
        exact ⟨hc₁, Or.inl rfl⟩
      rw [mergeEvents]
      by_cases hlt : lt b a
      · rw [if_pos hlt]
        have hbs : List.Chain' (fun a b => a.ts ≤ b.ts) bs := hc₂.tail
        obtain ⟨hm, hh⟩ := ih (a :: as) bs
          (by simp at hlen ⊢; omega) hc₁ hbs
        refine ⟨List.chain'_cons'.2 ⟨?_, hm⟩, Or.inr rfl⟩
        intro y hy
        rcases hh with hh | hh
        · rw [hh] at hy
          simp only [List.head?_cons, Option.mem_def, Option.some.injEq] at hy
          rw [← hy]
          exact h₁ b a hlt
        · rw [hh] at hy
          exact (List.chain'_cons'.1 hc₂).1 y hy
      · rw [if_neg hlt]
        have has : List.Chain' (fun a b => a.ts ≤ b.ts) as := hc₁.tail
        obtain ⟨hm, hh⟩ := ih as (b :: bs)
          (by simp at hlen ⊢; omega) has hc₂
        refine ⟨List.chain'_cons'.2 ⟨?_, hm⟩, Or.inl rfl⟩
        intro y hy
        rcases hh with hh | hh
        · rw [hh] at hy
          exact (List.chain'_cons'.1 hc₁).1 y hy
        · rw [hh] at hy
          simp only [List.head?_cons, Option.mem_def, Option.some.injEq] at hy
          rw [← hy]
          by_contra hcon
          push_neg at hcon
          exact hlt (h₂ b a hcon)
  intro l₁ l₂ hc₁ hc₂
  exact key (l₁.length + l₂.length) l₁ l₂ (le_refl _) hc₁ hc₂

theorem heapPush_of_lt (lt : Event → Event → Bool)
    (h₁ : ∀ a b, lt a b = true → a.ts ≤ b.ts)
    (l : List Event) (v : Event) (hlt : ∀ x ∈ l, x.ts < v.ts) :
    heapPush lt l v = l ++ [v] := by
  unfold heapPush
  cases hl : l.length with
  | zero =>
    have : l = [] := List.length_eq_zero.1 hl
    subst this
    rw [siftUp]
  | succ i =>
    rw [siftUp]
    have hvget : (l ++ [v]).get? (i + 1) = some v := by
      rw [← hl]
      rw [List.get?_eq_getElem?, List.getElem?_append_right (le_refl _)]
      simp
    have hparlt : i / 2 < l.length := by omega
    have hpget : (l ++ [v]).get? (i / 2) = l.get? (i / 2) := by
      rw [List.get?_eq_getElem?, List.get?_eq_getElem?, List.getElem?_append,
        if_pos hparlt]
    rw [hvget, hpget]
    cases hq : l.get? (i / 2) with
    | none =>
      exfalso
      rw [List.get?_eq_getElem?, List.getElem?_eq_none_iff] at hq
      omega
    | some q =>
      have hqmem : q ∈ l := by
        rw [List.get?_eq_getElem?] at hq
        exact List.getElem?_mem hq
      have hnq : ¬ lt v q = true := by
        intro hcon
        exact absurd (h₁ v q hcon) (by have := hlt q hqmem; omega)
      dsimp only
      rw [if_neg hnq]

theorem scenarioQueue_eq (lt : Event → Event → Bool)
    (h₁ : ∀ a b, lt a b = true → a.ts ≤ b.ts)
    (sym sid : String) (isShort isTarget : Bool) :
    scenarioQueue lt sym sid isShort isTarget =
      scenarioEventList sym sid isShort isTarget := by
  unfold scenarioQueue
  rcases hsc : scenarioEventList sym sid isShort isTarget with _ | ⟨e1, rest⟩
  · rfl
  · unfold scenarioEventList at hsc
    injection hsc with h1 h2
    rcases rest with _ | ⟨e2, rest2⟩
    · exact absurd h2 (by simp)
    injection h2 with h2 h3
    rcases rest2 with _ | ⟨e3, rest3⟩
    · exact absurd h3 (by simp)
    injection h3 with h3 h4
    have hrest : rest3 = [] := by
      cases rest3 with
      | nil => rfl
      | cons x xs => exact absurd h4 (by simp)
    subst hrest
    have hts1 : e1.ts = 1 := by rw [← h1]; simp [Event.ts]
    have hts2 : e2.ts = 2 := by rw [← h2]; simp [Event.ts]
    have hts3 : e3.ts = 3 := by rw [← h3]; simp [Event.ts]
    simp only [List.foldl_cons, List.foldl_nil]
    rw [heapPush_of_lt lt h₁ [] e1 (by simp)]
    simp only [List.nil_append]
    rw [heapPush_of_lt lt h₁ [e1] e2 (by
      intro x hx
      rw [List.mem_singleton] at hx
      rw [hx, hts1, hts2]
      omega)]
    simp only [List.singleton_append]
    rw [heapPush_of_lt lt h₁ [e1, e2] e3 (by
      intro x hx
      rcases List.mem_cons.1 hx with h | h
      · rw [h, hts1, hts3]; omega
      · rw [List.mem_singleton] at h
        rw [h, hts2, hts3]; omega)]
    rfl

/-- Claim C3 (confirmed): the traversal the run loop dispatches is the
one-shot `heapq.merge` of the endogenous heap list at merge time (empty,
or the three ascending scenario events `_run_test_scenario` heap-pushed)
with the pre-sorted market stream; for any element comparison whose
primary key is the event timestamp — spec §3 orders events by
`(timestamp, kind_priority, sequence)` — the dispatched sequence is
timestamp-monotonic.  (Endogenous events generated after the merge point
never enter this traversal: the loop is a single pass over the initial
merge, as the source itself notes, so every event actually dispatched
obeys the bound.) -/
theorem C3_dispatched_events_monotonic (lt : Event → Event → Bool)
    (h₁ : ∀ a b, lt a b = true → a.ts ≤ b.ts)
    (h₂ : ∀ a b, a.ts < b.ts → lt a b = true)
    (scenario : Option (Bool × Bool)) (sym sid : String)
    (ms : List Event)
    (hms : List.Chain' (fun a b => a.ts ≤ b.ts) ms) :
    List.Chain' (fun a b => a.ts ≤ b.ts)
      (dispatchedEvents lt scenario sym sid ms) := by
  unfold dispatchedEvents
  refine (mergeEvents_chain lt h₁ h₂ _ ms ?_ hms).1
  unfold initialQueue
  cases scenario with
  | none => exact List.chain'_nil
  | some pr =>
    obtain ⟨isShort, isTarget⟩ := pr
    dsimp only
    rw [scenarioQueue_eq lt h₁ sym sid isShort isTarget]
    unfold scenarioEventList
    refine List.chain'_cons.2 ⟨?_, List.chain'_cons.2 ⟨?_, List.chain'_singleton _⟩⟩ <;>
      simp [Event.ts]

/-! ### C10 — quiescence framework -/

theorem dictGet_dictSet_self {κ α : Type} [DecidableEq κ]
    (l : List (κ × α)) (k : κ) (v : α) :
    dictGet (dictSet l k v) k = some v := by
  unfold dictGet dictSet
  by_cases hmem : l.any (fun p => p.1 = k)
  · rw [if_pos hmem, List.find?_map]
    have hfun : ((fun p : κ × α => decide (p.1 = k)) ∘
        (fun p : κ × α => if p.1 = k then (k, v) else p)) =
        fun p : κ × α => decide (p.1 = k) := by
      funext p
      by_cases hp : p.1 = k <;> simp [hp]
    rw [hfun]
    cases hf : l.find? (fun p => decide (p.1 = k)) with
    | none =>
      rw [List.find?_eq_none] at hf
      rw [List.any_eq_true] at hmem
      obtain ⟨x, hx, hxk⟩ := hmem
      exact absurd hxk (by simpa using hf x hx)
    | some e =>
      have he : e.1 = k := by simpa using List.find?_some hf
      simp [he]
  · rw [if_neg hmem, List.find?_append]
    have hfl : l.find? (fun p : κ × α => decide (p.1 = k)) = none := by
      rw [List.find?_eq_none]
      intro x hx
      rw [List.any_eq_true] at hmem
      push_neg at hmem
      simpa using hmem x hx
    rw [hfl]
    simp

theorem dictSet_mem_cases {κ α : Type} [DecidableEq κ]
    (l : List (κ × α)) (k : κ) (v : α) (pr : κ × α)
    (h : pr ∈ dictSet l k v) : pr ∈ l ∨ pr.1 = k := by
  unfold dictSet at h
  split_ifs at h with hmem
  · obtain ⟨q, hq, hqe⟩ := List.mem_map.1 h
    by_cases hk : q.1 = k
    · right
      rw [← hqe]
      simp [hk]
    · left
      rw [← hqe]
      simpa [hk] using hq
  · rcases List.mem_append.1 h with h1 | h1
    · exact Or.inl h1
    · right
      rw [List.mem_singleton] at h1
      rw [h1]

theorem dictMem_dictSet_ne {κ α : Type} [DecidableEq κ]
    (l : List (κ × α)) (k id : κ) (v : α) (h : id ≠ k) :
    dictMem (dictSet l k v) id ↔ dictMem l id := by
  unfold dictMem
  rw [dictGet_dictSet_ne l k id v h]

theorem dictMem_of_dictDel {κ α : Type} [DecidableEq κ]
    (l : List (κ × α)) (k id : κ) (h : dictMem (dictDel l k) id) :
    dictMem l id := by
  obtain ⟨pr, hpr, hk⟩ := (dictMem_iff _ _).1 h
  exact (dictMem_iff _ _).2 ⟨pr, List.mem_of_mem_filter hpr, hk⟩

theorem fresh_gen_ne (id : OrderId) (c : ℕ) (hle : id.counterOf ≤ c)
    (pfx : String) :
    OrderId.gen pfx (c + 1) ≠ id ∧
      OrderId.mkt (OrderId.gen pfx (c + 1)) ≠ id := by
  constructor
  · intro h
    rw [← h] at hle
    simp [OrderId.counterOf] at hle
  · intro h
    rw [← h] at hle
    simp [OrderId.counterOf] at hle

theorem noNewForId_refl (id : OrderId) (s : ExecState) : noNewForId id s s :=
  ⟨rfl, fun _ h => Or.inl h, fun _ h => Or.inl h⟩

theorem noNewForId_trans {id : OrderId} {s1 s2 s3 : ExecState}
    (h12 : noNewForId id s1 s2) (h23 : noNewForId id s2 s3) :
    noNewForId id s1 s3 := by
  obtain ⟨ha, hb, hc⟩ := h12
  obtain ⟨ha', hb', hc'⟩ := h23
  refine ⟨ha'.trans ha, ?_, ?_⟩
  · intro f hf
    rcases hb' f hf with h | h
    · exact hb f h
    · exact Or.inr h
  · intro oe hoe
    rcases hc' oe hoe with h | h
    · exact hc oe h
    · exact Or.inr h

theorem quiescent_updateOrderStatus (id : OrderId) (s : ExecState)
    (oid : OrderId) (st : OrderStatus) (ts : ℤ) (fq : Option ℤ)
    (hne : oid ≠ id) (hst : st ≠ .PENDING_SUBMIT)
    (hq : execQuiescent id s) :
    execQuiescent id (updateOrderStatus s oid st ts fq) ∧
      noNewForId id s (updateOrderStatus s oid st ts fq) := by
  obtain ⟨tail, hqu, hev, hpl, hps, hle, hoc, hbk, hsub⟩ :=
    updateOrderStatus_spec s oid st ts fq
  obtain ⟨hq1, hq2, hq3, hq4⟩ := hq
  refine ⟨⟨?_, ?_, ?_, ?_⟩, ?_, ?_, ?_⟩
  · rw [hpl]; exact hq1
  · rw [hps]; exact hq2
  · intro o ho hpend
    rw [hqu] at ho
    rcases List.mem_append.1 ho with h | h
    · exact hq3 o h hpend
    · obtain ⟨oe, hoe, _, hstat⟩ := hev _ h
      have heq : o = oe := Event.order.inj hoe
      rw [heq, hstat] at hpend
      exact absurd hpend hst
  · rw [hoc]; exact hq4
  · exact hsub id (fun h => hne h.symm)
  · intro f hf
    rw [hqu] at hf
    rcases List.mem_append.1 hf with h | h
    · exact Or.inl h
    · obtain ⟨oe, hoe, _, _⟩ := hev _ h
      exact absurd hoe (by simp)
  · intro oe hoe
    rw [hqu] at hoe
    rcases List.mem_append.1 hoe with h | h
    · exact Or.inl h
    · obtain ⟨oe', hoe', hid, _⟩ := hev _ h
      have heq : oe = oe' := Event.order.inj hoe'
      exact Or.inr (by rw [heq, hid]; exact hne)

theorem processSignal_spec (p : ExecParams) (s : ExecState) (e : SignalEvent) :
    ∃ oe : OrderEvent,
      oe.order_id = OrderId.gen "ENTRY" (s.order_counter + 1) ∧
      oe.status = .PENDING_SUBMIT ∧
      oe.order_type = e.order_type ∧
      (processSignal p s e).queue = s.queue ++ [Event.order oe] ∧
      (processSignal p s e).pending_limit_orders = s.pending_limit_orders ∧
      (processSignal p s e).pending_stop_orders = s.pending_stop_orders ∧
      (processSignal p s e).order_counter = s.order_counter + 1 ∧
      (∀ k, k ≠ OrderId.gen "ENTRY" (s.order_counter + 1) →
        dictGet (processSignal p s e).submitted_orders k =
          dictGet s.submitted_orders k) := by
  unfold processSignal genOrderId
  dsimp only
  split_ifs with hlk
  all_goals
    exact ⟨_, rfl, rfl, rfl, rfl, rfl, rfl, rfl,
      fun k hk => dictGet_dictSet_ne _ _ _ _ hk⟩

theorem quiescent_processSignal (id : OrderId) (p : ExecParams)
    (s : ExecState) (e : SignalEvent) (hq : execQuiescent id s) :
    execQuiescent id (processSignal p s e) ∧
      noNewForId id s (processSignal p s e) := by
  obtain ⟨hq1, hq2, hq3, hq4⟩ := hq
  obtain ⟨hgen, hgenm⟩ := fresh_gen_ne id s.order_counter hq4 "ENTRY"
  obtain ⟨oe, hid, hst, _, hqu, hpl, hps, hoc, hsub⟩ := processSignal_spec p s e
  refine ⟨⟨?_, ?_, ?_, ?_⟩, ?_, ?_, ?_⟩
  · rw [hpl]; exact hq1
  · rw [hps]; exact hq2
  · intro o ho hpend
    rw [hqu] at ho
    rcases List.mem_append.1 ho with h | h
    · exact hq3 o h hpend
    · rw [List.mem_singleton] at h
      have ho' : o = oe := Event.order.inj h
      rw [ho', hid]
      exact ⟨hgen, fun _ => hgenm⟩
  · rw [hoc]; exact hq4.trans (by omega)
  · exact hsub id (fun h => hgen h.symm)
  · intro f hf
    rw [hqu] at hf
    rcases List.mem_append.1 hf with h | h
    · exact Or.inl h
    · rw [List.mem_singleton] at h
      exact absurd h (by simp)
  · intro oe' hoe
    rw [hqu] at hoe
    rcases List.mem_append.1 hoe with h | h
    · exact Or.inl h
    · rw [List.mem_singleton] at h
      have ho' : oe' = oe := Event.order.inj h
      exact Or.inr (by rw [ho', hid]; exact hgen)

/-- Witness for `C3_dispatched_events_monotonic`: the timestamp-only
comparison, the long-target scenario, and a two-trade market stream. -/
theorem C3_dispatched_events_monotonic_witness :
    List.Chain' (fun a b : Event => a.ts ≤ b.ts)
      (dispatchedEvents (fun a b => decide (a.ts < b.ts))
        (some (false, true)) "MES" "S"
        [Event.trade ⟨2, "MES", 5950, 1, Side.BUY⟩,
         Event.trade ⟨5, "MES", 5951, 2, Side.SELL⟩]) :=
  C3_dispatched_events_monotonic (fun a b => decide (a.ts < b.ts))
    (fun a b h => by simp at h; omega)
    (fun a b h => by simp; omega)
    (some (false, true)) "MES" "S" _
    (by simp [Event.ts])

theorem cancelLinkedTarget_spec (s : ExecState) (oid : OrderId) (ts : ℤ) :
    ∃ tail : List Event,
      (cancelLinkedTarget s oid ts).queue = s.queue ++ tail ∧
      (∀ ev ∈ tail, ∃ oe : OrderEvent, ev = Event.order oe ∧
        oe.status = .CANCELLED ∧ dictMem s.pending_limit_orders oe.order_id) ∧
      (∀ pr ∈ (cancelLinkedTarget s oid ts).pending_limit_orders,
        pr ∈ s.pending_limit_orders) ∧
      (cancelLinkedTarget s oid ts).pending_stop_orders =
        s.pending_stop_orders ∧
      (cancelLinkedTarget s oid ts).order_counter = s.order_counter ∧
      (cancelLinkedTarget s oid ts).book = s.book ∧
      (∀ k, (∀ pr ∈ s.pending_limit_orders, pr.1 ≠ k) →
        dictGet (cancelLinkedTarget s oid ts).submitted_orders k =
          dictGet s.submitted_orders k) := by
  unfold cancelLinkedTarget
  dsimp only
  split
  · exact ⟨[], by simp⟩
  · split
    · exact ⟨[], by simp⟩
    · split
      · exact ⟨[], by simp⟩
      · rename_i eid exits target_id h4
        split_ifs with h5
        · obtain ⟨tail, hq, hev, hpl, hps, hle, hoc, hbk, hsub⟩ :=
            updateOrderStatus_spec
              { s with pending_limit_orders :=
                  dictDel s.pending_limit_orders target_id }
              target_id .CANCELLED ts none
          refine ⟨tail, by simpa using hq, ?_, ?_, by simpa using hps, ?_, ?_, ?_⟩
          · intro ev hev'
            obtain ⟨oe, hoe, hid, hst⟩ := hev ev hev'
            exact ⟨oe, hoe, hst, hid ▸ h5⟩
          · intro pr hpr
            have hmem : pr ∈ dictDel s.pending_limit_orders target_id := by
              simp only [hpl] at hpr
              simpa using hpr
            exact List.mem_of_mem_filter hmem
          · simpa using hoc
          · simpa using hbk
          · intro k hk
            have hkne : k ≠ target_id := by
              intro he
              obtain ⟨pr, hpr, hpk⟩ := (dictMem_iff _ _).1 h5
              exact hk pr hpr (by rw [hpk, ← he])
            have := hsub k hkne
            simpa using this
        · exact ⟨[], by simp⟩

theorem cstEffects_spec (p : ExecParams) (tr : TradeEvent)
    (pr : OrderId × OrderEvent) (s : ExecState) :
    ∃ tail : List Event,
      (cstEffects p tr pr s).queue = s.queue ++ tail ∧
      (∀ ev ∈ tail, ∃ oe : OrderEvent, ev = Event.order oe ∧
        ((oe.status ≠ .PENDING_SUBMIT ∧
           (oe.order_id = pr.1 ∨ dictMem s.pending_limit_orders oe.order_id)) ∨
         (oe.order_id = OrderId.mkt pr.1 ∧ oe.order_type = .MARKET ∧
           oe.status = .PENDING_SUBMIT))) ∧
      (∀ pr' ∈ (cstEffects p tr pr s).pending_limit_orders,
        pr' ∈ s.pending_limit_orders) ∧
      (cstEffects p tr pr s).pending_stop_orders = s.pending_stop_orders ∧
      (cstEffects p tr pr s).order_counter = s.order_counter ∧
      (∀ k, k ≠ pr.1 → k ≠ OrderId.mkt pr.1 →
        (∀ pr' ∈ s.pending_limit_orders, pr'.1 ≠ k) →
        dictGet (cstEffects p tr pr s).submitted_orders k =
          dictGet s.submitted_orders k) := by
  unfold cstEffects
  dsimp only
  split_ifs with htrig hqty
  · obtain ⟨tailU, huq, huev, hupl, hups, hule, huoc, hubk, husub⟩ :=
      updateOrderStatus_spec s pr.1 .TRIGGERED tr.timestamp none
    set s₁ := updateOrderStatus s pr.1 .TRIGGERED tr.timestamp none with hs₁
    obtain ⟨tailC, hcq, hcev, hcpl, hcps, hcoc, hcbk, hcsub⟩ :=
      cancelLinkedTarget_spec s₁ pr.1 tr.timestamp
    refine ⟨tailU ++ tailC ++
      [Event.order
        { timestamp := tr.timestamp + p.latency_signal_order_ns
          order_id := OrderId.mkt pr.1
          strategy_id := pr.2.strategy_id, symbol := pr.2.symbol
          quantity := pr.2.quantity - pr.2.filled_quantity
          order_type := .MARKET, direction := pr.2.direction
          limit_price := none, stop_price := none, filled_quantity := 0
          status := .PENDING_SUBMIT, linked_stop_price := none
          linked_target_price := none, parent_order_id := some pr.1 }],
      ?_, ?_, ?_, ?_, ?_, ?_⟩
    · show (cancelLinkedTarget s₁ pr.1 tr.timestamp).queue ++ _ = _
      rw [hcq, huq]
      simp
    · intro ev hev
      simp only [List.mem_append, List.mem_singleton] at hev
      rcases hev with (he | he) | he
      · obtain ⟨oe, hoe, hid, hst⟩ := huev ev he
        exact ⟨oe, hoe, Or.inl ⟨by simp [hst], Or.inl hid⟩⟩
      · obtain ⟨oe, hoe, hst, hmem⟩ := hcev ev he
        refine ⟨oe, hoe, Or.inl ⟨by simp [hst], Or.inr ?_⟩⟩
        rwa [hupl] at hmem
      · exact ⟨_, he, Or.inr ⟨rfl, rfl, rfl⟩⟩
    · intro pr' hpr'
      have h1 : pr' ∈ (cancelLinkedTarget s₁ pr.1 tr.timestamp).pending_limit_orders := hpr'
      have h2 := hcpl pr' h1
      rwa [hupl] at h2
    · show (cancelLinkedTarget s₁ pr.1 tr.timestamp).pending_stop_orders = _
      rw [hcps, hups]
    · show (cancelLinkedTarget s₁ pr.1 tr.timestamp).order_counter = _
      rw [hcoc, huoc]
    · intro k hk1 hk2 hks
      show dictGet (dictSet (cancelLinkedTarget s₁ pr.1 tr.timestamp).submitted_orders
        (OrderId.mkt pr.1) _) k = _
      rw [dictGet_dictSet_ne _ _ _ _ hk2,
        hcsub k (by rw [hupl]; exact hks), husub k hk1]
  · obtain ⟨tailU, huq, huev, hupl, hups, hule, huoc, hubk, husub⟩ :=
      updateOrderStatus_spec s pr.1 .TRIGGERED tr.timestamp none
    set s₁ := updateOrderStatus s pr.1 .TRIGGERED tr.timestamp none with hs₁
    obtain ⟨tailC, hcq, hcev, hcpl, hcps, hcoc, hcbk, hcsub⟩ :=
      cancelLinkedTarget_spec s₁ pr.1 tr.timestamp
    refine ⟨tailU ++ tailC, ?_, ?_, ?_, ?_, ?_, ?_⟩
    · rw [hcq, huq]
      simp
    · intro ev hev
      rcases List.mem_append.1 hev with he | he
      · obtain ⟨oe, hoe, hid, hst⟩ := huev ev he
        exact ⟨oe, hoe, Or.inl ⟨by simp [hst], Or.inl hid⟩⟩
      · obtain ⟨oe, hoe, hst, hmem⟩ := hcev ev he
        refine ⟨oe, hoe, Or.inl ⟨by simp [hst], Or.inr ?_⟩⟩
        rwa [hupl] at hmem
    · intro pr' hpr'
      have h2 := hcpl pr' hpr'
      rwa [hupl] at h2
    · rw [hcps, hups]
    · rw [hcoc, huoc]
    · intro k hk1 _ hks
      rw [hcsub k (by rw [hupl]; exact hks), husub k hk1]
  · exact ⟨[], by simp⟩

theorem cstFold_spec (p : ExecParams) (tr : TradeEvent) :
    ∀ (es : List (OrderId × OrderEvent)) (s0 : ExecState),
      ∃ tail : List Event,
        (es.foldl (fun acc pr => cstEffects p tr pr acc) s0).queue =
          s0.queue ++ tail ∧
        (∀ ev ∈ tail, ∃ oe : OrderEvent, ev = Event.order oe ∧
          ((oe.status ≠ .PENDING_SUBMIT ∧
             ((∃ pr0, pr0 ∈ es ∧ oe.order_id = pr0.1) ∨
               dictMem s0.pending_limit_orders oe.order_id)) ∨
           (∃ pr0, pr0 ∈ es ∧ oe.order_id = OrderId.mkt pr0.1 ∧
             oe.order_type = .MARKET ∧ oe.status = .PENDING_SUBMIT))) ∧
        (∀ pr' ∈ (es.foldl (fun acc pr => cstEffects p tr pr acc) s0).pending_limit_orders,
          pr' ∈ s0.pending_limit_orders) ∧
        (es.foldl (fun acc pr => cstEffects p tr pr acc) s0).pending_stop_orders =
          s0.pending_stop_orders ∧
        (es.foldl (fun acc pr => cstEffects p tr pr acc) s0).order_counter =
          s0.order_counter ∧
        (∀ k, (∀ pr0 ∈ es, pr0.1 ≠ k ∧ OrderId.mkt pr0.1 ≠ k) →
          (∀ pr' ∈ s0.pending_limit_orders, pr'.1 ≠ k) →
          dictGet (es.foldl (fun acc pr => cstEffects p tr pr acc) s0).submitted_orders k =
            dictGet s0.submitted_orders k) := by
  intro es
  induction es with
  | nil => exact fun s0 => ⟨[], by simp, by simp, fun _ h => h, rfl, rfl, fun _ _ _ => rfl⟩
  | cons pr rest ih =>
    intro s0
    obtain ⟨tail1, h1q, h1ev, h1pl, h1ps, h1oc, h1sub⟩ :=
      cstEffects_spec p tr pr s0
    obtain ⟨tail2, h2q, h2ev, h2pl, h2ps, h2oc, h2sub⟩ :=
      ih (cstEffects p tr pr s0)
    refine ⟨tail1 ++ tail2, ?_, ?_, ?_, ?_, ?_, ?_⟩
    · rw [List.foldl_cons, h2q, h1q, List.append_assoc]
    · intro ev hev
      rcases List.mem_append.1 hev with he | he
      · obtain ⟨oe, hoe, hcase⟩ := h1ev ev he
        rcases hcase with ⟨hstat, hid | hmem⟩ | ⟨hid, hty, hstat⟩
        · exact ⟨oe, hoe, Or.inl ⟨hstat, Or.inl ⟨pr, List.mem_cons_self _ _, hid⟩⟩⟩
        · exact ⟨oe, hoe, Or.inl ⟨hstat, Or.inr hmem⟩⟩
        · exact ⟨oe, hoe, Or.inr ⟨pr, List.mem_cons_self _ _, hid, hty, hstat⟩⟩
      · obtain ⟨oe, hoe, hcase⟩ := h2ev ev he
        rcases hcase with ⟨hstat, ⟨pr0, hpr0, hid⟩ | hmem⟩ | ⟨pr0, hpr0, hid, hty, hstat⟩
        · exact ⟨oe, hoe, Or.inl ⟨hstat,
            Or.inl ⟨pr0, List.mem_cons_of_mem _ hpr0, hid⟩⟩⟩
        · obtain ⟨pr', hpr', hk⟩ := (dictMem_iff _ _).1 hmem
          exact ⟨oe, hoe, Or.inl ⟨hstat, Or.inr ((dictMem_iff _ _).2
            ⟨pr', h1pl pr' hpr', hk⟩)⟩⟩
        · exact ⟨oe, hoe, Or.inr ⟨pr0, List.mem_cons_of_mem _ hpr0, hid, hty, hstat⟩⟩
    · intro pr' hpr'
      rw [List.foldl_cons] at hpr'
      exact h1pl pr' (h2pl pr' hpr')
    · rw [List.foldl_cons, h2ps, h1ps]
    · rw [List.foldl_cons, h2oc, h1oc]
    · intro k hkes hks
      rw [List.foldl_cons, h2sub k
        (fun pr0 hpr0 => hkes pr0 (List.mem_cons_of_mem _ hpr0))
        (fun pr' hpr' => hks pr' (h1pl pr' hpr')),
        h1sub k (fun he => (hkes pr (List.mem_cons_self _ _)).1 he.symm)
          (fun he => (hkes pr (List.mem_cons_self _ _)).2 he.symm) hks]

theorem quiescent_checkLimitFills (id : OrderId) (p : ExecParams)
    (tr : TradeEvent) (s : ExecState) (hq : execQuiescent id s) :
    execQuiescent id (checkLimitFills p tr s) ∧
      noNewForId id s (checkLimitFills p tr s) := by
  obtain ⟨hq1, hq2, hq3, hq4⟩ := hq
  have hkeys : ∀ pr ∈ s.pending_limit_orders, pr.1 ≠ id :=
    not_dictMem_keys _ _ hq1
  have hskeys : ∀ pr ∈ s.pending_stop_orders, pr.1 ≠ id :=
    fun pr hpr => (hq2 pr hpr).1
  obtain ⟨tail, hfq, hfev, hfpl, hfps, hfoc, hfbk, hfsub⟩ :=
    clfFold_spec p tr s.pending_limit_orders s
  have hQ : (checkLimitFills p tr s).queue = s.queue ++ tail := hfq
  have hOC : (checkLimitFills p tr s).order_counter = s.order_counter := hfoc
  refine ⟨⟨?_, ?_, ?_, ?_⟩, ?_, ?_, ?_⟩
  · intro hmem
    obtain ⟨pr', hpr', hk⟩ := (dictMem_iff _ _).1 hmem
    rw [checkLimitFills_pending] at hpr'
    obtain ⟨pr0, hpr0, hkeep⟩ := List.mem_filterMap.1 hpr'
    exact hkeys pr0 hpr0 (by rw [← clfKeep_fst tr pr0 pr' hkeep, hk])
  · intro pr hpr
    exact hq2 pr (hfps pr hpr)
  · intro o ho hpend
    rw [hQ] at ho
    rcases List.mem_append.1 ho with h | h
    · exact hq3 o h hpend
    · rcases hfev _ h with ⟨pr0, _, hfe, _, _⟩ | ⟨oe, hoe, hstat, _⟩
      · exact absurd hfe (by simp)
      · rw [Event.order.inj hoe] at hpend
        exact absurd hpend hstat
  · rw [hOC]
    exact hq4
  · exact hfsub id hkeys hskeys
  · intro f hf
    rw [hQ] at hf
    rcases List.mem_append.1 hf with h | h
    · exact Or.inl h
    · rcases hfev _ h with ⟨pr0, hpr0, hfe, _, _⟩ | ⟨oe, hoe, _, _⟩
      · refine Or.inr ?_
        rw [Event.fill.inj hfe]
        exact fun he => hkeys pr0 hpr0 he
      · exact absurd hoe (by simp)
  · intro oe hoe
    rw [hQ] at hoe
    rcases List.mem_append.1 hoe with h | h
    · exact Or.inl h
    · rcases hfev _ h with ⟨pr0, _, hfe, _, _⟩ | ⟨oe', hoe', _, hcase⟩
      · exact absurd hfe (by simp)
      · refine Or.inr ?_
        rw [Event.order.inj hoe']
        rcases hcase with ⟨pr0, hpr0, hid⟩ | hmem
        · exact hid ▸ hkeys pr0 hpr0
        · obtain ⟨pr', hpr', hk⟩ := (dictMem_iff _ _).1 hmem
          exact hk ▸ hskeys pr' hpr'

theorem quiescent_checkStopTriggers (id : OrderId) (p : ExecParams)
    (tr : TradeEvent) (s : ExecState) (hq : execQuiescent id s) :
    execQuiescent id (checkStopTriggers p tr s) ∧
      noNewForId id s (checkStopTriggers p tr s) := by
  obtain ⟨hq1, hq2, hq3, hq4⟩ := hq
  have hkeys : ∀ pr ∈ s.pending_limit_orders, pr.1 ≠ id :=
    not_dictMem_keys _ _ hq1
  obtain ⟨tail, hfq, hfev, hfpl, hfps, hfoc, hfsub⟩ :=
    cstFold_spec p tr s.pending_stop_orders s
  have hQ : (checkStopTriggers p tr s).queue = s.queue ++ tail := hfq
  have hOC : (checkStopTriggers p tr s).order_counter = s.order_counter := hfoc
  refine ⟨⟨?_, ?_, ?_, ?_⟩, ?_, ?_, ?_⟩
  · intro hmem
    obtain ⟨pr', hpr', hk⟩ := (dictMem_iff _ _).1 hmem
    have hpr2 : pr' ∈ (s.pending_stop_orders.foldl
        (fun acc pr => cstEffects p tr pr acc) s).pending_limit_orders := hpr'
    exact hkeys pr' (hfpl pr' hpr2) hk
  · intro pr hpr
    have hpr2 : pr ∈ s.pending_stop_orders.filter
        (fun pr => ¬ cstTriggered tr pr.2) := hpr
    exact hq2 pr (List.mem_of_mem_filter hpr2)
  · intro o ho hpend
    rw [hQ] at ho
    rcases List.mem_append.1 ho with h | h
    · exact hq3 o h hpend
    · obtain ⟨oe, hoe, hcase⟩ := hfev _ h
      rw [Event.order.inj hoe] at hpend ⊢
      rcases hcase with ⟨hstat, _⟩ | ⟨pr0, hpr0, hid, hty, _⟩
      · exact absurd hpend hstat
      · refine ⟨hid ▸ (hq2 pr0 hpr0).2, fun hsm => ?_⟩
        rw [hty] at hsm
        exact absurd hsm (by simp)
  · rw [hOC]
    exact hq4
  · exact hfsub id (fun pr0 hpr0 => hq2 pr0 hpr0) hkeys
  · intro f hf
    rw [hQ] at hf
    rcases List.mem_append.1 hf with h | h
    · exact Or.inl h
    · obtain ⟨oe, hoe, _⟩ := hfev _ h
      exact absurd hoe (by simp)
  · intro oe hoe
    rw [hQ] at hoe
    rcases List.mem_append.1 hoe with h | h
    · exact Or.inl h
    · obtain ⟨oe', hoe', hcase⟩ := hfev _ h
      refine Or.inr ?_
      rw [Event.order.inj hoe']
      rcases hcase with ⟨_, ⟨pr0, hpr0, hid⟩ | hmem⟩ | ⟨pr0, hpr0, hid, _, _⟩
      · exact hid ▸ (hq2 pr0 hpr0).1
      · obtain ⟨pr', hpr', hk⟩ := (dictMem_iff _ _).1 hmem
        exact hk ▸ hkeys pr' hpr'
      · exact hid ▸ (hq2 pr0 hpr0).2

theorem updateOrderStatus_partial (s : ExecState) (oid : OrderId) (ts : ℤ)
    (F : ℤ) (o : OrderEvent)
    (hstored : dictGet s.submitted_orders oid = some o) :
    updateOrderStatus s oid .PARTIALLY_FILLED ts (some F) =
      { s with
          submitted_orders :=
            dictSet s.submitted_orders oid { o with filled_quantity := F }
          queue := s.queue ++
            [Event.order (mkStatusEvent oid o .PARTIALLY_FILLED ts (some F))] } := by
  unfold updateOrderStatus
  rw [hstored]
  dsimp only
  rw [if_pos rfl, if_neg (by decide : ¬ (OrderStatus.PARTIALLY_FILLED = .FILLED ∨
    OrderStatus.PARTIALLY_FILLED = .REJECTED ∨
    OrderStatus.PARTIALLY_FILLED = .CANCELLED))]
  rfl

theorem quiescent_updateOrderStatus_after (id : OrderId) (s s₂ : ExecState)
    (oid : OrderId) (st : OrderStatus) (ts : ℤ) (fq : Option ℤ)
    (hne : oid ≠ id) (hst : st ≠ .PENDING_SUBMIT)
    (hq2 : execQuiescent id s₂) (hnn : noNewForId id s s₂) :
    execQuiescent id (updateOrderStatus s₂ oid st ts fq) ∧
      noNewForId id s (updateOrderStatus s₂ oid st ts fq) := by
  obtain ⟨ha, hb⟩ := quiescent_updateOrderStatus id s₂ oid st ts fq hne hst hq2
  exact ⟨ha, noNewForId_trans hnn hb⟩

theorem quiescent_executeMarketOrder (id : OrderId) (p : ExecParams)
    (s : ExecState) (o : OrderEvent) (ho : o.order_id ≠ id)
    (hq : execQuiescent id s) :
    execQuiescent id (executeMarketOrder p s o) ∧
      noNewForId id s (executeMarketOrder p s o) := by
  obtain ⟨hq1, hq2, hq3, hq4⟩ := hq
  unfold executeMarketOrder
  dsimp only
  by_cases hside : bookOpposite s.book o.direction = []
  · rw [if_pos hside]
    unfold rejectOrder
    exact quiescent_updateOrderStatus id s o.order_id .REJECTED o.timestamp
      none ho (by decide) ⟨hq1, hq2, hq3, hq4⟩
  · rw [if_neg hside]
    by_cases hfill :
        (walkSide o.quantity (bookOpposite s.book o.direction)).1 > 0
    · rw [if_pos hfill]
      apply quiescent_updateOrderStatus_after id s _ o.order_id _ o.timestamp _
        ho
      · split_ifs <;> decide
      · refine ⟨hq1, hq2, ?_, hq4⟩
        intro o' ho' hp
        rcases List.mem_append.1 ho' with h | h
        · exact hq3 o' h hp
        · simp at h
      · refine ⟨rfl, ?_, ?_⟩
        · intro f hf
          rcases List.mem_append.1 hf with h | h
          · exact Or.inl h
          · rw [List.mem_singleton] at h
            refine Or.inr ?_
            rw [Event.fill.inj h]
            exact ho
        · intro oe hoe
          rcases List.mem_append.1 hoe with h | h
          · exact Or.inl h
          · simp at h
    · rw [if_neg hfill]
      unfold rejectOrder
      apply quiescent_updateOrderStatus_after id s _ o.order_id .REJECTED
        o.timestamp none ho (by decide)
      · exact ⟨hq1, hq2, hq3, hq4⟩
      · exact ⟨rfl, fun _ h => Or.inl h, fun _ h => Or.inl h⟩

theorem quiescent_handleLimitOrderPlacement (id : OrderId) (p : ExecParams)
    (s : ExecState) (o : OrderEvent) (ho : o.order_id ≠ id)
    (hq : execQuiescent id s) :
    execQuiescent id (handleLimitOrderPlacement p s o) ∧
      noNewForId id s (handleLimitOrderPlacement p s o) := by
  unfold handleLimitOrderPlacement
  dsimp only
  by_cases himm :
      (o.direction = Side.BUY ∧ pyTruthyQ o.limit_price ∧
        pyTruthyQ s.book.best_ask ∧
        o.limit_price.getD 0 ≥ s.book.best_ask.getD 0) ∨
      (o.direction = Side.SELL ∧ pyTruthyQ o.limit_price ∧
        pyTruthyQ s.book.best_bid ∧
        o.limit_price.getD 0 ≤ s.book.best_bid.getD 0)
  · rw [if_pos himm]
    exact quiescent_executeMarketOrder id p s o ho hq
  · rw [if_neg himm]
    obtain ⟨hq1, hq2, hq3, hq4⟩ := hq
    refine ⟨⟨?_, hq2, hq3, hq4⟩,
      ⟨rfl, fun _ h => Or.inl h, fun _ h => Or.inl h⟩⟩
    intro hm
    exact hq1 ((dictMem_dictSet_ne _ _ _ _ (fun he => ho he.symm)).1 hm)

theorem quiescent_handleStopOrderPlacement (id : OrderId)
    (s : ExecState) (o : OrderEvent) (ho : o.order_id ≠ id)
    (hmkt : OrderId.mkt o.order_id ≠ id) (hq : execQuiescent id s) :
    execQuiescent id (handleStopOrderPlacement s o) ∧
      noNewForId id s (handleStopOrderPlacement s o) := by
  unfold handleStopOrderPlacement
  split
  · unfold rejectOrder
    exact quiescent_updateOrderStatus id s o.order_id .REJECTED o.timestamp
      none ho (by decide) hq
  · obtain ⟨hq1, hq2, hq3, hq4⟩ := hq
    refine ⟨⟨hq1, ?_, hq3, hq4⟩,
      ⟨rfl, fun _ h => Or.inl h, fun _ h => Or.inl h⟩⟩
    intro pr hpr
    rcases dictSet_mem_cases _ _ _ _ hpr with h | h
    · exact hq2 pr h
    · rw [h]
      exact ⟨ho, hmkt⟩

theorem quiescent_executeOrder (id : OrderId) (p : ExecParams)
    (s : ExecState) (o : OrderEvent) (ho : o.order_id ≠ id)
    (hstop : o.order_type = .STOP_MARKET → OrderId.mkt o.order_id ≠ id)
    (hq : execQuiescent id s) :
    execQuiescent id (executeOrder p s o) ∧
      noNewForId id s (executeOrder p s o) := by
  unfold executeOrder
  dsimp only
  obtain ⟨ha, hb⟩ := quiescent_updateOrderStatus id s o.order_id .ACCEPTED
    o.timestamp none ho (by decide) hq
  split
  · rename_i hty
    obtain ⟨hc, hd⟩ := quiescent_executeMarketOrder id p _ o ho ha
    exact ⟨hc, noNewForId_trans hb hd⟩
  · rename_i hty
    obtain ⟨hc, hd⟩ := quiescent_handleLimitOrderPlacement id p _ o ho ha
    exact ⟨hc, noNewForId_trans hb hd⟩
  · rename_i hty
    obtain ⟨hc, hd⟩ := quiescent_handleStopOrderPlacement id _ o ho
      (hstop hty) ha
    exact ⟨hc, noNewForId_trans hb hd⟩

theorem quiescent_stepDispatch {σ : Type} (id : OrderId) (p : ExecParams)
    (pp : PortfolioParams)
    (onMD : TradeEvent → σ → StratCore → σ × StratCore × List SignalEvent)
    (e : Event) (st : RunState σ) (hq : execQuiescent id st.exec)
    (hok : evOrderOk id e) :
    execQuiescent id (stepDispatch p pp onMD e st).exec ∧
      noNewForId id st.exec (stepDispatch p pp onMD e st).exec := by
  unfold stepDispatch
  cases e with
  | signal sg =>
    exact quiescent_processSignal id p st.exec sg hq
  | order o =>
    dsimp only
    by_cases hpend : o.status = .PENDING_SUBMIT
    · rw [if_pos hpend]
      obtain ⟨ho, hstop⟩ := hok o rfl hpend
      exact quiescent_executeOrder id p st.exec o ho hstop hq
    · rw [if_neg hpend]
      exact ⟨hq, rfl, fun _ h => Or.inl h, fun _ h => Or.inl h⟩
  | fill f =>
    exact ⟨hq, rfl, fun _ h => Or.inl h, fun _ h => Or.inl h⟩
  | depth d =>
    exact ⟨hq, rfl, fun _ h => Or.inl h, fun _ h => Or.inl h⟩
  | trade tr =>
    dsimp only
    obtain ⟨hq1, hq2, hq3, hq4⟩ := hq
    have hq1' : execQuiescent id
        { st.exec with queue := st.exec.queue ++
            ((onMD tr st.stratData st.strat).2.2.map Event.signal) } := by
      refine ⟨hq1, hq2, ?_, hq4⟩
      intro o' ho' hp
      rcases List.mem_append.1 ho' with h | h
      · exact hq3 o' h hp
      · obtain ⟨sg, _, hsg⟩ := List.mem_map.1 h
        exact absurd hsg (by simp)
    have hnn1 : noNewForId id st.exec
        { st.exec with queue := st.exec.queue ++
            ((onMD tr st.stratData st.strat).2.2.map Event.signal) } := by
      refine ⟨rfl, ?_, ?_⟩
      · intro f hf
        rcases List.mem_append.1 hf with h | h
        · exact Or.inl h
        · obtain ⟨sg, _, hsg⟩ := List.mem_map.1 h
          exact absurd hsg (by simp)
      · intro oe hoe
        rcases List.mem_append.1 hoe with h | h
        · exact Or.inl h
        · obtain ⟨sg, _, hsg⟩ := List.mem_map.1 h
          exact absurd hsg (by simp)
    obtain ⟨hq2', hnn2⟩ := quiescent_checkLimitFills id p tr _ hq1'
    obtain ⟨hq3', hnn3⟩ := quiescent_checkStopTriggers id p tr _ hq2'
    exact ⟨hq3', noNewForId_trans (noNewForId_trans hnn1 hnn2) hnn3⟩

theorem quiescent_runFold {σ : Type} (id : OrderId) (p : ExecParams)
    (pp : PortfolioParams)
    (onMD : TradeEvent → σ → StratCore → σ × StratCore × List SignalEvent)
    (es : List Event) :
    ∀ st : RunState σ, execQuiescent id st.exec →
      (∀ e ∈ es, evOrderOk id e) →
      execQuiescent id
        (es.foldl (fun acc e => stepDispatch p pp onMD e acc) st).exec ∧
      noNewForId id st.exec
        (es.foldl (fun acc e => stepDispatch p pp onMD e acc) st).exec := by
  induction es with
  | nil =>
    intro st hq _
    exact ⟨hq, rfl, fun _ h => Or.inl h, fun _ h => Or.inl h⟩
  | cons e rest ih =>
    intro st hq hok
    obtain ⟨h1, h2⟩ := quiescent_stepDispatch id p pp onMD e st hq
      (hok e (List.mem_cons_self _ _))
    obtain ⟨h3, h4⟩ := ih (stepDispatch p pp onMD e st) h1
      (fun e' he' => hok e' (List.mem_cons_of_mem _ he'))
    rw [List.foldl_cons]
    exact ⟨h3, noNewForId_trans h2 h4⟩

/-- **C10.**  An over-sized MARKET order — one whose quantity exceeds the
total liquidity of the (nonempty, positive) opposite book side — produces
exactly one Fill, for the consumed quantity (that total liquidity), and
exactly one PARTIALLY_FILLED status event; it is placed in neither
`pending_limit_orders` nor `pending_stop_orders`, and its stored record
stays in `submitted_orders` with the partial `filled_quantity` recorded
(the source's `_update_order_status` reports PARTIALLY_FILLED through the
status event and the mutated `filled_quantity`; it never rewrites the
stored record's own `status` attribute).  Second half: from any execution
state quiescent for the order id, dispatching any sequence of run-loop
events that do not re-submit the id (every market / depth / signal event,
and every status or order event the quiescent state itself can deliver)
preserves quiescence, keeps the stored record verbatim, and never enqueues
another Fill or status event for the id — the remaining quantity is never
filled. -/
theorem C10_partial_fill_is_final :
    (∀ (p : ExecParams) (s : ExecState) (o : OrderEvent),
      dictGet s.submitted_orders o.order_id = some o →
      bookOpposite s.book o.direction ≠ [] →
      (∀ pr ∈ bookOpposite s.book o.direction, 0 < pr.2.qty) →
      ((bookOpposite s.book o.direction).map (fun pr => pr.2.qty)).sum <
        o.quantity →
      ((∃ f : FillEvent, ∃ sev : OrderEvent,
          (executeMarketOrder p s o).queue =
            s.queue ++ [Event.fill f, Event.order sev] ∧
          f.order_id = o.order_id ∧
          f.quantity_filled =
            ((bookOpposite s.book o.direction).map (fun pr => pr.2.qty)).sum ∧
          sev.order_id = o.order_id ∧
          sev.status = .PARTIALLY_FILLED ∧
          sev.filled_quantity =
            ((bookOpposite s.book o.direction).map (fun pr => pr.2.qty)).sum) ∧
        (executeMarketOrder p s o).pending_limit_orders =
          s.pending_limit_orders ∧
        (executeMarketOrder p s o).pending_stop_orders =
          s.pending_stop_orders ∧
        dictGet (executeMarketOrder p s o).submitted_orders o.order_id =
          some { o with filled_quantity :=
            ((bookOpposite s.book o.direction).map (fun pr => pr.2.qty)).sum } ∧
        (execQuiescent o.order_id s →
          execQuiescent o.order_id (executeMarketOrder p s o)))) ∧
    (∀ (σ : Type) (pp : PortfolioParams)
      (onMD : TradeEvent → σ → StratCore → σ × StratCore × List SignalEvent)
      (p : ExecParams) (id : OrderId) (es : List Event) (st : RunState σ),
      execQuiescent id st.exec →
      (∀ e ∈ es, evOrderOk id e) →
      execQuiescent id
        (es.foldl (fun acc e => stepDispatch p pp onMD e acc) st).exec ∧
      noNewForId id st.exec
        (es.foldl (fun acc e => stepDispatch p pp onMD e acc) st).exec) := by
  constructor
  · intro p s o hstored hne hpos hex
    have hLpos : 0 <
        ((bookOpposite s.book o.direction).map (fun pr => pr.2.qty)).sum :=
      positive_side_sum _ hne hpos
    have hq0 : 0 < o.quantity := by omega
    have hF : consumedTotal o.quantity (bookOpposite s.book o.direction) =
        ((bookOpposite s.book o.direction).map (fun pr => pr.2.qty)).sum := by
      rw [consumedTotal_min _ _ hq0.le hpos]
      omega
    have hFne : ¬ consumedTotal o.quantity (bookOpposite s.book o.direction) =
        o.quantity := by
      rw [hF]
      omega
    have hrun := executeMarketOrder_run p s o hne hpos hq0
    rw [if_neg hFne, hF] at hrun
    rw [hrun, updateOrderStatus_partial _ o.order_id o.timestamp _ o]
    · refine ⟨⟨_, _, List.append_assoc _ _ _, rfl, rfl, rfl, rfl, rfl⟩,
        rfl, rfl, dictGet_dictSet_self _ _ _, ?_⟩
      intro hqc
      obtain ⟨hq1, hq2, hq3, hq4⟩ := hqc
      refine ⟨hq1, hq2, ?_, hq4⟩
      intro o' ho' hp
      rcases List.mem_append.1 ho' with h | h
      · rcases List.mem_append.1 h with h2 | h2
        · exact hq3 o' h2 hp
        · simp at h2
      · rw [List.mem_singleton] at h
        rw [Event.order.inj h] at hp
        simp [mkStatusEvent] at hp
    · exact hstored
  · intro σ pp onMD p id es st hq hok
    exact quiescent_runFold id p pp onMD es st hq hok

/-- Witness for `C10_partial_fill_is_final`: the BUY-7 market order of
`c10State` against 5 contracts of ask liquidity, and a later trade
dispatched through the run loop from the quiescent state `c10Run`. -/
theorem C10_partial_fill_is_final_witness :
    ((∃ f : FillEvent, ∃ sev : OrderEvent,
        (executeMarketOrder fixParams c10State c10Order).queue =
          c10State.queue ++ [Event.fill f, Event.order sev] ∧
        f.order_id = c10Order.order_id ∧
        f.quantity_filled =
          ((bookOpposite c10State.book c10Order.direction).map
            (fun pr => pr.2.qty)).sum ∧
        sev.order_id = c10Order.order_id ∧
        sev.status = .PARTIALLY_FILLED ∧
        sev.filled_quantity =
          ((bookOpposite c10State.book c10Order.direction).map
            (fun pr => pr.2.qty)).sum) ∧
      (executeMarketOrder fixParams c10State c10Order).pending_limit_orders =
        c10State.pending_limit_orders ∧
      (executeMarketOrder fixParams c10State c10Order).pending_stop_orders =
        c10State.pending_stop_orders ∧
      dictGet (executeMarketOrder fixParams c10State c10Order).submitted_orders
          c10Order.order_id =
        some { c10Order with filled_quantity :=
          ((bookOpposite c10State.book c10Order.direction).map
            (fun pr => pr.2.qty)).sum } ∧
      (execQuiescent c10Order.order_id c10State →
        execQuiescent c10Order.order_id
          (executeMarketOrder fixParams c10State c10Order))) ∧
    (execQuiescent (OrderId.gen "ENTRY" 1)
        ([Event.trade c10Trade].foldl
          (fun acc e => stepDispatch fixParams c10PortParams
            (fun _ u sc => (u, sc, [])) e acc) c10Run).exec ∧
      noNewForId (OrderId.gen "ENTRY" 1) c10Run.exec
        ([Event.trade c10Trade].foldl
          (fun acc e => stepDispatch fixParams c10PortParams
            (fun _ u sc => (u, sc, [])) e acc) c10Run).exec) := by
  refine ⟨C10_partial_fill_is_final.1 fixParams c10State c10Order rfl
      (by decide) (by decide) (by decide),
    C10_partial_fill_is_final.2 Unit c10PortParams
      (fun _ u sc => (u, sc, [])) fixParams (OrderId.gen "ENTRY" 1)
      [Event.trade c10Trade] c10Run
      ⟨by decide, by simp [c10Run], by simp [c10Run], by decide⟩
      ?_⟩
  intro e he
  rw [List.mem_singleton] at he
  subst he
  intro o h
  exact absurd h (by simp)

end L3
